import Mathlib

/-!
Verification of the garbage-collected heap manager of this runtime
(src/runtime/gc/heap.cc) against its natural-language specification.

The definitions below are a shallow embedding of the functions of
src/runtime/gc/heap.cc.  Machine integers (size_t) are modelled as Nat,
C++ int as Int, C++ float and double values as Rat with explicit floors
at every narrowing conversion, and fallible operations return Option.
Functions of the repository that are declared but whose bodies are not
part of the sources at hand (the ReferenceQueue operations, the bump
pointer Alloc, IsCompactingGC from heap.h) are modelled from the
specification text and say so in their doc comments.
-/

namespace HeapGc

/-- Collector GC types, from gc/collector/gc_type.h as used throughout
heap.cc: kGcTypeNone, kGcTypeSticky, kGcTypePartial, kGcTypeFull. -/
inductive GcType where
  | None
  | Sticky
  | Partial
  | Full
deriving DecidableEq, Repr

/-- Collector families, from collector_type.h as used by heap.cc:
kCollectorTypeNone, kCollectorTypeMS, kCollectorTypeCMS, kCollectorTypeSS,
kCollectorTypeGSS. -/
inductive CollectorType where
  | TypeNone
  | MS
  | CMS
  | SS
  | GSS
deriving DecidableEq, Repr

/-- Modelled from the spec: Heap::IsCompactingGC is declared in heap.h,
which is not among the sources at hand.  Spec 4.8 and 4.6: the moving
(compacting) configurations are the semi-space families, i.e. SS and GSS;
mark-sweep families MS and CMS are non-moving. -/
def isCompactingGC : CollectorType → Bool
  | CollectorType.SS => true
  | CollectorType.GSS => true
  | _ => false

/-- Minimum amount of remaining bytes before a concurrent GC is triggered
(heap.cc line 74: 128 * KB). -/
def kMinConcurrentRemainingBytes : Nat := 128 * 1024

/-- Maximum amount of remaining bytes used for the concurrent GC trigger
(heap.cc line 75: 512 * KB). -/
def kMaxConcurrentRemainingBytes : Nat := 512 * 1024

/-! ## Native allocation accounting (heap.cc RegisterNativeFree) -/

/-- Heap::RegisterNativeFree, heap.cc lines 2432-2445, in a single-threaded
execution (the CompareAndSwap loop terminates on its first iteration when no
other thread interferes).  The counter and the argument are C++ int, modelled
as Int.  Returns the new value of native_bytes_allocated_ together with a
flag recording whether a java.lang.RuntimeException was thrown. -/
def registerNativeFree (nativeBytesAllocated : Int) (bytes : Int) : Int × Bool :=
  let newSize := nativeBytesAllocated - bytes
  if newSize < 0 then
    (nativeBytesAllocated, true)
  else
    (newSize, false)

/-! ## Growth policy (heap.cc GrowForUtilization / SetIdealFootprint) -/

/-- State read and written by Heap::GrowForUtilization and
Heap::SetIdealFootprint (heap.cc lines 2114-2121 and 2161-2217).
Sizes are size_t, modelled as Nat; target_utilization_ is a floating
point value, modelled as Rat. -/
structure GrowState where
  bytesAllocated : Nat
  minFree : Nat
  maxFree : Nat
  targetUtilization : Rat
  maxAllowedFootprint : Nat
  growthLimit : Nat
  haveZygoteSpace : Bool
  ignoreMaxFootprint : Bool
  concurrentGc : Bool
  allocationRate : Nat
  concurrentStartBytes : Nat
  nextGcType : GcType
  nativeNeedToRunFinalization : Bool
  lastGcSize : Nat
deriving DecidableEq, Repr

/-- Division of a size_t by the floating point utilization value followed by
the implicit conversion back to size_t, which truncates.  In exact rational
arithmetic the quotient a / (num/den) equals a*den/num, and its truncation is
the integer floor division; the lemma natDivRatFloor_eq_floor below proves
this computation equal to the rational floor. -/
def natDivRatFloor (a : Nat) (u : Rat) : Nat := (((a : Int) * (u.den : Int)) / u.num).toNat

/-- Equivalence of natDivRatFloor with the mathematical floor of the exact
rational quotient, for a positive divisor. -/
theorem natDivRatFloor_eq_floor (a : Nat) (u : Rat) (hu : 0 < u) :
    natDivRatFloor a u = (⌊(a : Rat) / u⌋).toNat := by
  have hnum : 0 < u.num := Rat.num_pos.mpr hu
  have hq : (a : Rat) / u =
      (((a : Int) * (u.den : Int) : Int) : Rat) / ((u.num.toNat : Nat) : Rat) := by
    have h1 : ((u.num.toNat : Nat) : Rat) = ((u.num : Int) : Rat) := by
      exact_mod_cast congrArg (fun z : Int => (z : Rat)) (Int.toNat_of_nonneg (le_of_lt hnum))
    rw [h1]
    push_cast
    conv_lhs => rw [← Rat.num_div_den u]
    rw [div_div_eq_mul_div]
  rw [natDivRatFloor, hq, Rat.floor_intCast_div_natCast]
  congr 1
  rw [Int.toNat_of_nonneg (le_of_lt hnum)]

/-- Target size computation of the non-sticky branch of
Heap::GrowForUtilization, heap.cc lines 2170-2175: divide bytes_allocated by
the target utilization, then clamp against bytes_allocated + max_free_ and
bytes_allocated + min_free_. -/
def heapTargetSize (bytesAllocated minFree maxFree : Nat) (u : Rat) : Nat :=
  let target := natDivRatFloor bytesAllocated u
  if target > bytesAllocated + maxFree then bytesAllocated + maxFree
  else if target < bytesAllocated + minFree then bytesAllocated + minFree
  else target

/-- Heap::SetIdealFootprint, heap.cc lines 2114-2121: clamp the requested
footprint to GetMaxMemory() (the growth limit) and store it. -/
def setIdealFootprint (s : GrowState) (target : Nat) : GrowState :=
  { s with maxAllowedFootprint := if target > s.growthLimit then s.growthLimit else target }

/-- Heap::GrowForUtilization, heap.cc lines 2161-2217.  gcDurationNs is the
duration of the finished GC in nanoseconds.  NsToMs is division by 10^6; the
duration in seconds is NsToMs / 1000.0 and the stored estimate is the product
with allocation_rate_ truncated back to size_t; in exact rational arithmetic
that truncation is the single integer floor division by 1000 written here. -/
def growForUtilization (s0 : GrowState) (gcType : GcType) (gcDurationNs : Nat) : GrowState :=
  let bytesAllocated := s0.bytesAllocated
  let s1 := { s0 with lastGcSize := bytesAllocated }
  let targetSize :=
    if gcType ≠ GcType.Sticky then
      heapTargetSize bytesAllocated s1.minFree s1.maxFree s1.targetUtilization
    else
      if bytesAllocated + s1.maxFree < s1.maxAllowedFootprint then bytesAllocated + s1.maxFree
      else max bytesAllocated s1.maxAllowedFootprint
  let s2 :=
    if gcType ≠ GcType.Sticky then
      { s1 with nativeNeedToRunFinalization := true, nextGcType := GcType.Sticky }
    else
      { s1 with nextGcType :=
          if bytesAllocated + s1.minFree ≤ s1.maxAllowedFootprint then GcType.Sticky
          else if s1.haveZygoteSpace then GcType.Partial else GcType.Full }
  if s2.ignoreMaxFootprint then s2
  else
    let s3 := setIdealFootprint s2 targetSize
    if s3.concurrentGc then
      let remaining0 := s3.allocationRate * (gcDurationNs / 1000000) / 1000
      let remaining1 := min remaining0 kMaxConcurrentRemainingBytes
      let remaining2 := max remaining1 kMinConcurrentRemainingBytes
      let remaining3 :=
        if remaining2 > s3.maxAllowedFootprint then kMinConcurrentRemainingBytes else remaining2
      { s3 with concurrentStartBytes := max (s3.maxAllowedFootprint - remaining3) bytesAllocated }
    else s3

/-- The clamped estimate of bytes remaining until the next GC should start,
as the formula of the specification reads: allocationRate times
lastGcDurationSeconds, clamped to the interval between 128 KiB and 512 KiB.
The product with the duration in seconds is written as the equivalent integer
floor division. -/
def specClampedRemaining (allocationRate : Nat) (gcDurationNs : Nat) : Nat :=
  max (min (allocationRate * (gcDurationNs / 1000000) / 1000)
        kMaxConcurrentRemainingBytes)
      kMinConcurrentRemainingBytes

/-! ## Theorems for claims C3, C4, C7 -/

/-- C7: For every call to RegisterNativeFree(bytes): if subtracting bytes
would make the native-bytes counter negative, a runtime-level exception is
thrown and the counter keeps its prior value; otherwise the counter is
decreased by exactly bytes.  (heap.cc lines 2432-2445.) -/
theorem registerNativeFree_correct (counter bytes : Int) :
    (counter - bytes < 0 → registerNativeFree counter bytes = (counter, true)) ∧
    (0 ≤ counter - bytes → registerNativeFree counter bytes = (counter - bytes, false)) := by
  constructor
  · intro h
    simp [registerNativeFree, h]
  · intro h
    simp [registerNativeFree, not_lt.mpr h]

/-- Witness for C7: both branches of registerNativeFree_correct evaluated at
concrete inputs: freeing 7 of 5 registered bytes throws and leaves the
counter at 5; freeing 3 of 5 leaves 2 without throwing. -/
theorem registerNativeFree_correct_witness :
    registerNativeFree 5 7 = (5, true) ∧ registerNativeFree 5 3 = (2, false) :=
  ⟨(registerNativeFree_correct 5 7).1 (by decide),
   (registerNativeFree_correct 5 3).2 (by decide)⟩

/-- C3: After every GC whose type is not sticky, GrowForUtilization sets the
footprint target to max(min(bytesAllocated/targetUtilization,
bytesAllocated+maxFree), bytesAllocated+minFree) and sets the next GC type to
sticky.  The computed target is then stored by SetIdealFootprint, which also
clamps it to the growth limit; the hypothesis minFree ≤ maxFree is the
documented shape of the two free-bounds configuration values. -/
theorem growForUtilization_nonSticky (s : GrowState) (gcType : GcType) (d : Nat)
    (hT : gcType ≠ GcType.Sticky) (hFree : s.minFree ≤ s.maxFree) :
    (growForUtilization s gcType d).nextGcType = GcType.Sticky ∧
    heapTargetSize s.bytesAllocated s.minFree s.maxFree s.targetUtilization =
      max (min (natDivRatFloor s.bytesAllocated s.targetUtilization)
            (s.bytesAllocated + s.maxFree))
          (s.bytesAllocated + s.minFree) ∧
    (s.ignoreMaxFootprint = false →
      (growForUtilization s gcType d).maxAllowedFootprint =
        min (heapTargetSize s.bytesAllocated s.minFree s.maxFree s.targetUtilization)
            s.growthLimit) := by
  obtain ⟨ba, mif, maf, u, mafp, gl, hz, imf, cgc, ar, csb, ngt, nnf, lgs⟩ := s
  simp only at hFree
  refine ⟨?_, ?_, ?_⟩
  · simp [growForUtilization, setIdealFootprint, hT]
    try split_ifs <;> rfl
  · simp only [heapTargetSize]
    split_ifs <;> omega
  · intro hImf
    subst hImf
    simp [growForUtilization, setIdealFootprint, hT]
    split_ifs <;> simp <;> omega

/-- Witness for C3: a heap with 1000 bytes allocated, minFree 100,
maxFree 500, utilization one half; the raw target 2000 is clamped down to
1500 and the next GC type becomes sticky. -/
theorem growForUtilization_nonSticky_witness :
    (growForUtilization
      { bytesAllocated := 1000, minFree := 100, maxFree := 500,
        targetUtilization := mkRat 1 2, maxAllowedFootprint := 0,
        growthLimit := 1000000, haveZygoteSpace := false,
        ignoreMaxFootprint := false, concurrentGc := false,
        allocationRate := 0, concurrentStartBytes := 0,
        nextGcType := GcType.Full, nativeNeedToRunFinalization := false,
        lastGcSize := 0 } GcType.Full 0).nextGcType = GcType.Sticky ∧
    heapTargetSize 1000 100 500 (mkRat 1 2) =
      max (min (natDivRatFloor 1000 (mkRat 1 2)) (1000 + 500)) (1000 + 100) :=
  ⟨(growForUtilization_nonSticky _ GcType.Full 0 (by decide) (by decide)).1,
   (growForUtilization_nonSticky
      { bytesAllocated := 1000, minFree := 100, maxFree := 500,
        targetUtilization := mkRat 1 2, maxAllowedFootprint := 0,
        growthLimit := 1000000, haveZygoteSpace := false,
        ignoreMaxFootprint := false, concurrentGc := false,
        allocationRate := 0, concurrentStartBytes := 0,
        nextGcType := GcType.Full, nativeNeedToRunFinalization := false,
        lastGcSize := 0 } GcType.Full 0 (by decide) (by decide)).2.1⟩

/-- Concrete heap state for claim C4: 0 bytes allocated, minFree = maxFree =
200 KiB, utilization 1, an allocation rate of 300 KiB per second and a one
second GC.  The footprint target becomes 200 KiB, which is below the clamped
remaining-bytes estimate of 300 KiB, so the fallback branch of
GrowForUtilization fires. -/
def c4State : GrowState :=
  { bytesAllocated := 0, minFree := 204800, maxFree := 204800,
    targetUtilization := 1, maxAllowedFootprint := 0,
    growthLimit := 1000000000, haveZygoteSpace := false,
    ignoreMaxFootprint := false, concurrentGc := true,
    allocationRate := 307200, concurrentStartBytes := 0,
    nextGcType := GcType.Full, nativeNeedToRunFinalization := false,
    lastGcSize := 0 }

/-- Counterexample to C4 as stated: on c4State after a full one-second GC the
code sets concurrentStartBytes to 73728 (footprint 204800 minus the 128 KiB
fallback), while the formula of the claim,
max(maxAllowedFootprint − clamp(allocationRate × lastGcDurationSeconds,
128KiB, 512KiB), bytesAllocated), evaluates to max(204800 − 307200, 0) = 0.
The claim omits the fallback of heap.cc lines 2203-2208, which replaces the
clamped estimate by 128 KiB whenever it exceeds the allowed footprint. -/
theorem growForUtilization_concurrent_counterexample :
    (growForUtilization c4State GcType.Full 1000000000).concurrentStartBytes = 73728 ∧
    max ((growForUtilization c4State GcType.Full 1000000000).maxAllowedFootprint -
          specClampedRemaining c4State.allocationRate 1000000000)
        c4State.bytesAllocated = 0 ∧
    (73728 : Nat) ≠ 0 := by decide

/-- C4 (amended): After every GC under a concurrent collector (when the max
footprint is not ignored), the concurrent-GC trigger is set to
concurrentStartBytes = max(maxAllowedFootprint − r, bytesAllocated), where
r = clamp(allocationRate × lastGcDurationSeconds, 128KiB, 512KiB) unless that
clamped value exceeds maxAllowedFootprint, in which case r = 128KiB. -/
theorem growForUtilization_concurrent_trigger (s : GrowState) (gcType : GcType) (d : Nat)
    (hC : s.concurrentGc = true) (hI : s.ignoreMaxFootprint = false) :
    (growForUtilization s gcType d).concurrentStartBytes =
      max ((growForUtilization s gcType d).maxAllowedFootprint -
            (if specClampedRemaining s.allocationRate d >
                  (growForUtilization s gcType d).maxAllowedFootprint
             then kMinConcurrentRemainingBytes
             else specClampedRemaining s.allocationRate d))
          s.bytesAllocated := by
  obtain ⟨ba, mif, maf, u, mafp, gl, hz, imf, cgc, ar, csb, ngt, nnf, lgs⟩ := s
  simp only at hC hI
  subst hC hI
  cases gcType <;> rfl

/-- Witness for the amended C4 theorem, instantiated at c4State with a full
one-second GC: both sides of the equation evaluate to 73728. -/
theorem growForUtilization_concurrent_trigger_witness :
    (growForUtilization c4State GcType.Full 1000000000).concurrentStartBytes =
      max ((growForUtilization c4State GcType.Full 1000000000).maxAllowedFootprint -
            (if specClampedRemaining c4State.allocationRate 1000000000 >
                  (growForUtilization c4State GcType.Full 1000000000).maxAllowedFootprint
             then kMinConcurrentRemainingBytes
             else specClampedRemaining c4State.allocationRate 1000000000))
          c4State.bytesAllocated :=
  growForUtilization_concurrent_trigger c4State GcType.Full 1000000000 (by decide) (by decide)

/-! ## Process state, collector transition and CollectGarbageInternal
(heap.cc UpdateProcessState, TransitionCollector, ChangeCollector, StartGC) -/

/-- Process states delivered to Heap::UpdateProcessState:
kProcessStateJankPerceptible (foreground) and kProcessStateJankImperceptible
(background). -/
inductive ProcessState where
  | JankPerceptible
  | Background
deriving DecidableEq, Repr

/-- Heap fields read and written by UpdateProcessState, TransitionCollector,
ChangeCollector, StartGC and the early-exit paths of CollectGarbageInternal. -/
structure CollectorState where
  processState : ProcessState
  collectorType : CollectorType
  postZygoteCollectorType : CollectorType
  backgroundCollectorType : CollectorType
  haveZygoteSpace : Bool
  lastGcType : GcType
  gcPlan : List GcType
  concurrentGc : Bool
deriving DecidableEq, Repr

/-- Heap::StartGC, heap.cc lines 1639-1652.  The wait for a running GC under
gc_complete_lock_ is abstracted; disableMovingGcCount is the value of
disable_moving_gc_count_ observed under the lock.  Returns whether the GC may
start and whether the skip warning was logged. -/
def startGC (isCompacting : Bool) (disableMovingGcCount : Nat) : Bool × Bool :=
  if isCompacting ∧ disableMovingGcCount ≠ 0 then (false, true) else (true, false)

/-- Heap::ChangeCollector, heap.cc lines 1256-1301: records the new collector
type and rebuilds the GC plan; the allocator change and the reset of
concurrent_start_bytes_ are not modelled.  The unimplemented default case is
LOG(FATAL) in the code and is modelled as the identity. -/
def changeCollector (s : CollectorState) (t : CollectorType) : CollectorState :=
  if t = s.collectorType then s
  else
    match t with
    | CollectorType.SS =>
        { s with collectorType := t, concurrentGc := false, gcPlan := [GcType.Full] }
    | CollectorType.GSS =>
        { s with collectorType := t, concurrentGc := false, gcPlan := [GcType.Full] }
    | CollectorType.MS =>
        { s with collectorType := t, concurrentGc := false,
                 gcPlan := [GcType.Sticky, GcType.Partial, GcType.Full] }
    | CollectorType.CMS =>
        { s with collectorType := t, concurrentGc := true,
                 gcPlan := [GcType.Sticky, GcType.Partial, GcType.Full] }
    | CollectorType.TypeNone => s

/-- Busy-wait loop of Heap::TransitionCollector, heap.cc lines 1183-1189:
while StartGC fails (logging a warning each time), usleep and retry.  counts
holds the successive observations of disable_moving_gc_count_, one per
attempt.  Returns the number of warnings logged together with the state after
the transition body ran, or Option.none if every observation was consumed
with the loop still waiting. -/
def transitionLoop (s : CollectorState) (target : CollectorType) (copying : Bool) :
    List Nat → Nat × Option CollectorState
  | [] => (0, Option.none)
  | c :: rest =>
    if (startGC copying c).1 then (0, some (changeCollector s target))
    else
      let r := transitionLoop s target copying rest
      (r.1 + 1, r.2)

/-- Heap::TransitionCollector, heap.cc lines 1172-1254: return immediately if
the target equals the current collector type; otherwise busy-wait on StartGC
and then reshape the spaces and call ChangeCollector (the space reshaping is
abstracted into changeCollector). -/
def transitionCollector (s : CollectorState) (target : CollectorType) (counts : List Nat) :
    Nat × Option CollectorState :=
  if target = s.collectorType then (0, some s)
  else
    let copying := isCompactingGC s.backgroundCollectorType
                   || isCompactingGC s.postZygoteCollectorType
    transitionLoop s target copying counts

/-- Observable action of a call to Heap::UpdateProcessState. -/
inductive UpdateAction where
  | Transitioned (target : CollectorType)
  | TransitionNoOp
  | RanFullBackgroundGc
deriving DecidableEq, Repr

/-- Collector type selected by UpdateProcessState for a new process state
(heap.cc lines 349-353). -/
def processStateTarget (s : CollectorState) (newState : ProcessState) : CollectorType :=
  if newState = ProcessState.JankPerceptible then s.postZygoteCollectorType
  else s.backgroundCollectorType

/-- Heap::UpdateProcessState, heap.cc lines 346-357, combined with the early
return of TransitionCollector (heap.cc lines 1173-1175), in an uncontended
execution where the busy-wait of TransitionCollector acquires StartGC at
once.  When the process state is unchanged the code runs
CollectGarbageInternal(kGcTypeFull, kGcCauseBackground, false) instead. -/
def updateProcessState (s : CollectorState) (newState : ProcessState) :
    CollectorState × UpdateAction :=
  if s.processState ≠ newState then
    let s1 := { s with processState := newState }
    let target := processStateTarget s1 newState
    if target = s1.collectorType then (s1, UpdateAction.TransitionNoOp)
    else (changeCollector s1 target, UpdateAction.Transitioned target)
  else (s, UpdateAction.RanFullBackgroundGc)

/-- Heap::CollectGarbageInternal, heap.cc lines 1513-1637.  The chosen
collector run and its statistics, the cleared-reference enqueueing and the
growth update are abstracted into the runCollector parameter;
disableMovingGcCount is the count observed by StartGC.  Returns the GcType
the function returns, the new heap state, whether a collector was started,
and the number of warnings logged. -/
def collectGarbageInternal (runCollector : CollectorState → GcType → CollectorState)
    (s : CollectorState) (gcType : GcType) (disableMovingGcCount : Nat) :
    GcType × CollectorState × Bool × Nat :=
  if gcType = GcType.Partial ∧ s.haveZygoteSpace = false then
    (GcType.None, s, false, 0)
  else
    let compacting := isCompactingGC s.collectorType
    if (startGC compacting disableMovingGcCount).1 = false then
      (GcType.None, s, false, 1)
    else
      let gcType1 := if compacting then GcType.Full else gcType
      let s1 := runCollector s gcType1
      (gcType1, { s1 with lastGcType := gcType1 }, true, 0)

/-! ## Theorems for claims C5, C6, C10 -/

/-- ChangeCollector records the requested collector type whenever the request
is implemented (the LOG(FATAL) default case aside). -/
theorem changeCollector_collectorType (s : CollectorState) (t : CollectorType)
    (h : t ≠ CollectorType.TypeNone) : (changeCollector s t).collectorType = t := by
  by_cases he : t = s.collectorType
  · simp [changeCollector, he]
  · cases t <;> simp_all [changeCollector]

/-- ChangeCollector never changes the recorded process state. -/
theorem changeCollector_processState (s : CollectorState) (t : CollectorType) :
    (changeCollector s t).processState = s.processState := by
  by_cases he : t = s.collectorType
  · simp [changeCollector, he]
  · cases t <;> simp [changeCollector, he]

/-- Concrete heap state for claim C5: the process state is jank-perceptible,
the current collector is MS, and the configured background collector is also
MS, so the heap is already in the collector that a background transition
targets. -/
def c5State : CollectorState :=
  { processState := ProcessState.JankPerceptible, collectorType := CollectorType.MS,
    postZygoteCollectorType := CollectorType.MS, backgroundCollectorType := CollectorType.MS,
    haveZygoteSpace := false, lastGcType := GcType.None,
    gcPlan := [GcType.Sticky, GcType.Partial, GcType.Full], concurrentGc := false }

/-- Counterexample to C5 as stated: moving c5State to the background state
targets backgroundCollectorType = MS, which the heap is already in.  The
claim says a forced full background GC is run instead of a transition, but
the code runs the GC only when the process state itself is unchanged
(heap.cc line 347); here the state changed, TransitionCollector returns
immediately (heap.cc lines 1173-1175), and no GC is run. -/
theorem updateProcessState_counterexample :
    (updateProcessState c5State ProcessState.Background).2 = UpdateAction.TransitionNoOp ∧
    UpdateAction.TransitionNoOp ≠ UpdateAction.RanFullBackgroundGc := by decide

/-- C5 (amended): UpdateProcessState transitions to postZygoteCollectorType
when the new state is jank-perceptible and to backgroundCollectorType when it
is background, provided the new process state differs from the current one;
when the process state is unchanged a forced full background GC is run
instead; and a transition whose target is the collector already in use is a
no-op (neither a transition nor a GC). -/
theorem updateProcessState_amended (s : CollectorState) (ns : ProcessState) :
    (s.processState = ns → updateProcessState s ns = (s, UpdateAction.RanFullBackgroundGc)) ∧
    (s.processState ≠ ns → processStateTarget s ns = s.collectorType →
      updateProcessState s ns =
        ({ s with processState := ns }, UpdateAction.TransitionNoOp)) ∧
    (s.processState ≠ ns → processStateTarget s ns ≠ s.collectorType →
      processStateTarget s ns ≠ CollectorType.TypeNone →
      (updateProcessState s ns).2 = UpdateAction.Transitioned (processStateTarget s ns) ∧
      (updateProcessState s ns).1.collectorType = processStateTarget s ns ∧
      (updateProcessState s ns).1.processState = ns) := by
  have htgt : processStateTarget { s with processState := ns } ns = processStateTarget s ns := rfl
  refine ⟨?_, ?_, ?_⟩
  · intro h
    simp [updateProcessState, h]
  · intro h ht
    simp [updateProcessState, h, htgt, ht]
  · intro h ht hv
    have h2 : ¬ processStateTarget s ns = CollectorState.collectorType
        { s with processState := ns } := ht
    simp only [updateProcessState, h, htgt, if_pos, ne_eq, not_false_eq_true, if_neg h2,
      if_true]
    exact ⟨by trivial, changeCollector_collectorType _ _ hv,
      changeCollector_processState _ _⟩

/-- Witness for the amended C5 theorem: the three cases instantiated at
concrete states.  An unchanged background state runs the forced GC; moving
c5State to background is a no-op because the target collector is already in
use; moving a heap with background collector SS to background transitions to
SS. -/
theorem updateProcessState_amended_witness :
    updateProcessState { c5State with processState := ProcessState.Background }
        ProcessState.Background =
      ({ c5State with processState := ProcessState.Background },
        UpdateAction.RanFullBackgroundGc) ∧
    updateProcessState c5State ProcessState.Background =
      ({ c5State with processState := ProcessState.Background }, UpdateAction.TransitionNoOp) ∧
    (updateProcessState { c5State with backgroundCollectorType := CollectorType.SS }
        ProcessState.Background).2 = UpdateAction.Transitioned CollectorType.SS :=
  ⟨(updateProcessState_amended _ ProcessState.Background).1 (by decide),
   (updateProcessState_amended c5State ProcessState.Background).2.1 (by decide) (by decide),
   ((updateProcessState_amended _ ProcessState.Background).2.2 (by decide) (by decide)
      (by decide)).1⟩

/-- When every observation of disable_moving_gc_count_ is non-zero, the
busy-wait loop of TransitionCollector logs one warning per attempt and is
still waiting after the last attempt. -/
theorem transitionLoop_all_nonzero (s : CollectorState) (target : CollectorType)
    (counts : List Nat) (h : ∀ c ∈ counts, c ≠ 0) :
    transitionLoop s target true counts = (counts.length, Option.none) := by
  induction counts with
  | nil => rfl
  | cons c rest ih =>
    have hc : c ≠ 0 := h c (List.mem_cons_self c rest)
    have ih2 := ih (fun x hx => h x (List.mem_cons_of_mem c hx))
    simp [transitionLoop, startGC, hc, ih2]

/-- If the busy-wait loop of TransitionCollector completes, it completes with
the ChangeCollector outcome, and some observed count allowed StartGC. -/
theorem transitionLoop_some (s : CollectorState) (target : CollectorType)
    (copying : Bool) (counts : List Nat) (s' : CollectorState)
    (h : (transitionLoop s target copying counts).2 = some s') :
    s' = changeCollector s target ∧ ∃ c ∈ counts, (startGC copying c).1 = true := by
  induction counts with
  | nil => simp [transitionLoop] at h
  | cons c rest ih =>
    by_cases hs : (startGC copying c).1 = true
    · simp [transitionLoop, hs] at h
      exact ⟨h.symm, c, List.mem_cons_self c rest, hs⟩
    · simp only [transitionLoop, Bool.not_eq_true] at h hs
      rw [hs] at h
      simp at h
      obtain ⟨he, c2, hc2, hsc⟩ := ih h
      exact ⟨he, c2, List.mem_cons_of_mem c hc2, hsc⟩

/-- Concrete heap state for claim C6: the current collector is MS while the
configured background collector is the moving SS, so a transition to SS is a
moving (copying) transition. -/
def c6State : CollectorState :=
  { processState := ProcessState.JankPerceptible, collectorType := CollectorType.MS,
    postZygoteCollectorType := CollectorType.MS, backgroundCollectorType := CollectorType.SS,
    haveZygoteSpace := false, lastGcType := GcType.None,
    gcPlan := [GcType.Sticky, GcType.Partial, GcType.Full], concurrentGc := false }

/-- Counterexample to C6 as stated: a moving transition of c6State to SS is
requested while disable_moving_gc_count_ is 1.  The claim says the transition
is skipped with the heap configuration unchanged, but TransitionCollector
busy-waits (heap.cc lines 1183-1189): after the count drops to 0 on the
second StartGC attempt the transition completes and the collector type
changes to SS.  One warning was logged for the failed attempt. -/
theorem transitionCollector_counterexample :
    (transitionCollector c6State CollectorType.SS [1, 0]).1 = 1 ∧
    (transitionCollector c6State CollectorType.SS [1, 0]).2 =
      some { c6State with collectorType := CollectorType.SS, gcPlan := [GcType.Full] } ∧
    CollectorState.collectorType
        { c6State with collectorType := CollectorType.SS, gcPlan := [GcType.Full] }
      ≠ c6State.collectorType := by decide

/-- C6 (amended): When a moving (compacting) collector transition is
requested while the disable-moving-GC count is non-zero, each failed StartGC
attempt logs a warning and the transition busy-waits, proceeding (not
skipped) as soon as an attempt observes a zero count; while every observed
count is non-zero the loop keeps waiting with one warning per attempt.  A
compacting garbage collection requested through CollectGarbageInternal in the
same situation is skipped: it logs one warning and returns kGcTypeNone with
the heap state unchanged and no collector started. -/
theorem movingGcDisabled_amended (s : CollectorState) (target : CollectorType)
    (counts : List Nat) (run : CollectorState → GcType → CollectorState)
    (gcType : GcType) (count : Nat) :
    (target ≠ s.collectorType → target ≠ CollectorType.TypeNone →
      (isCompactingGC s.backgroundCollectorType
        || isCompactingGC s.postZygoteCollectorType) = true →
      ((∀ c ∈ counts, c ≠ 0) →
        transitionCollector s target counts = (counts.length, Option.none)) ∧
      (∀ s', (transitionCollector s target counts).2 = some s' →
        s'.collectorType = target ∧ ∃ c ∈ counts, c = 0) ∧
      (∀ c0 rest, counts = c0 :: rest → c0 ≠ 0 →
        1 ≤ (transitionCollector s target counts).1)) ∧
    (isCompactingGC s.collectorType = true → count ≠ 0 →
      ¬(gcType = GcType.Partial ∧ s.haveZygoteSpace = false) →
      collectGarbageInternal run s gcType count = (GcType.None, s, false, 1)) := by
  constructor
  · intro hne hv hcopy
    refine ⟨?_, ?_, ?_⟩
    · intro hall
      simp only [transitionCollector, if_neg hne, hcopy]
      exact transitionLoop_all_nonzero s target counts hall
    · intro s' hs'
      simp only [transitionCollector, if_neg hne, hcopy] at hs'
      obtain ⟨he, c, hc, hsc⟩ := transitionLoop_some s target true counts s' hs'
      refine ⟨?_, c, hc, ?_⟩
      · rw [he]
        exact changeCollector_collectorType s target hv
      · by_contra hc0
        simp [startGC, hc0] at hsc
    · intro c0 rest hcounts hc0
      subst hcounts
      simp only [transitionCollector, if_neg hne, hcopy, transitionLoop, startGC, hc0]
      simp [hc0]
  · intro hcomp hcount hnp
    simp only [collectGarbageInternal, if_neg hnp, hcomp, startGC, hcount]
    simp [hcount]

/-- Witness for the amended C6 theorem at c6State with target SS: with count
observations [1, 1] the transition keeps waiting with two warnings; with one
non-zero observation at the head the warning count is at least one; with the
current collector set to SS, a compacting collection request with count 1 is
skipped with one warning. -/
theorem movingGcDisabled_amended_witness :
    transitionCollector c6State CollectorType.SS [1, 1] = (2, Option.none) ∧
    1 ≤ (transitionCollector c6State CollectorType.SS [1, 0]).1 ∧
    collectGarbageInternal (fun s _ => s)
        { c6State with collectorType := CollectorType.SS } GcType.Full 1 =
      (GcType.None, { c6State with collectorType := CollectorType.SS }, false, 1) :=
  ⟨((movingGcDisabled_amended c6State CollectorType.SS [1, 1] (fun s _ => s)
      GcType.Full 1).1 (by decide) (by decide) (by decide)).1 (by decide),
   ((movingGcDisabled_amended c6State CollectorType.SS [1, 0] (fun s _ => s)
      GcType.Full 1).1 (by decide) (by decide) (by decide)).2.2 1 [0] rfl (by decide),
   (movingGcDisabled_amended { c6State with collectorType := CollectorType.SS }
      CollectorType.SS [] (fun s _ => s) GcType.Full 1).2 (by decide) (by decide)
      (by decide)⟩

/-- C10: For every call to CollectGarbageInternal requesting a partial GC
while no zygote space exists, the call returns kGcTypeNone without starting
any collector and without changing any heap state (heap.cc lines 1518-1523,
the early return precedes StartGC and every state update). -/
theorem collectGarbageInternal_partial_noZygote
    (run : CollectorState → GcType → CollectorState) (s : CollectorState) (count : Nat)
    (h : s.haveZygoteSpace = false) :
    collectGarbageInternal run s GcType.Partial count = (GcType.None, s, false, 0) := by
  simp [collectGarbageInternal, h]

/-- Witness for C10: a partial GC request on the zygote-less c6State returns
kGcTypeNone with the state unchanged, no collector started and no warning. -/
theorem collectGarbageInternal_partial_noZygote_witness :
    collectGarbageInternal (fun s _ => s) c6State GcType.Partial 0 =
      (GcType.None, c6State, false, 0) :=
  collectGarbageInternal_partial_noZygote (fun s _ => s) c6State 0 (by decide)

/-! ## Allocation slow path (heap.cc AllocateInternalWithGc) -/

/-- Observable events of one run of AllocateInternalWithGc, in program
order: the wait for an in-progress GC (recording the type it returned), an
allocation attempt (with the grow flag of the TryToAllocate template and its
success), a collector run (with its clearSoftReferences argument and whether
it ran), and the throw of the out-of-memory error. -/
inductive AllocEvent where
  | WaitForGc (lastGc : GcType)
  | TryAlloc (grow : Bool) (success : Bool)
  | RunGc (t : GcType) (clearSoft : Bool) (ran : Bool)
  | ThrowOOM
deriving DecidableEq, Repr

/-- Result of AllocateInternalWithGc: an object pointer, the null return that
aborts because the current allocator changed under the caller, or null with
the out-of-memory error thrown. -/
inductive AllocResult where
  | Ok (ptr : Nat)
  | Aborted
  | OOM
deriving DecidableEq, Repr

/-- Callees of AllocateInternalWithGc over an abstract heap state σ, as state
transformers: gcPlan is gc_plan_, currentAllocator is GetCurrentAllocator,
waitForGcToComplete returns the type of the GC waited for (kGcTypeNone when
none was running), tryToAllocate takes the grow template flag, and
collectGarbage is CollectGarbageInternal returning the GC type that ran
(kGcTypeNone when the collector could not run). -/
structure AllocEnv (σ : Type) where
  gcPlan : List GcType
  currentAllocator : σ → Nat
  waitForGcToComplete : σ → GcType × σ
  tryToAllocate : Bool → σ → Option Nat × σ
  collectGarbage : GcType → Bool → σ → GcType × σ

/-- Outcome of the plan loop of AllocateInternalWithGc. -/
inductive LoopOutcome where
  | Found (ptr : Nat)
  | NotFound
  | LoopAborted
deriving DecidableEq, Repr

/-- The plan loop of AllocateInternalWithGc, heap.cc lines 972-987: for each
GC type of the plan while no pointer has been obtained, run the collector
with clearSoftReferences=false, abort if the caller used the default
allocator and the current allocator changed, and retry the allocation after
each run that did collect.  Returns the outcome, the final heap state, and
the events of the loop. -/
def allocGcLoop {σ : Type} (env : AllocEnv σ) (wasDefault : Bool) (allocator : Nat) :
    List GcType → σ → LoopOutcome × σ × List AllocEvent
  | [], s => (LoopOutcome.NotFound, s, [])
  | t :: rest, s =>
    let r1 := env.collectGarbage t false s
    let ran := decide (r1.1 ≠ GcType.None)
    if wasDefault ∧ allocator ≠ env.currentAllocator r1.2 then
      (LoopOutcome.LoopAborted, r1.2, [AllocEvent.RunGc t false ran])
    else if ran then
      let r2 := env.tryToAllocate false r1.2
      match r2.1 with
      | some p =>
        (LoopOutcome.Found p, r2.2,
          [AllocEvent.RunGc t false ran, AllocEvent.TryAlloc false true])
      | Option.none =>
        let k := allocGcLoop env wasDefault allocator rest r2.2
        (k.1, k.2.1, AllocEvent.RunGc t false ran :: AllocEvent.TryAlloc false false :: k.2.2)
    else
      let k := allocGcLoop env wasDefault allocator rest r1.2
      (k.1, k.2.1, AllocEvent.RunGc t false ran :: k.2.2)

/-- Final escalation of AllocateInternalWithGc, heap.cc lines 993-1012: run
the most severe plan entry (gc_plan_.back()) with clearSoftReferences=true,
abort if the default allocator changed, retry once with growth allowed, and
throw the OutOfMemoryError if that retry still returns null. -/
def allocFinalPhase {σ : Type} (env : AllocEnv σ) (wasDefault : Bool) (allocator : Nat)
    (s : σ) : AllocResult × σ × List AllocEvent :=
  let lastPlan := env.gcPlan.getLastD GcType.None
  let r1 := env.collectGarbage lastPlan true s
  let ranEv := AllocEvent.RunGc lastPlan true (decide (r1.1 ≠ GcType.None))
  if wasDefault ∧ allocator ≠ env.currentAllocator r1.2 then
    (AllocResult.Aborted, r1.2, [ranEv])
  else
    let r2 := env.tryToAllocate true r1.2
    match r2.1 with
    | some p => (AllocResult.Ok p, r2.2, [ranEv, AllocEvent.TryAlloc true true])
    | Option.none =>
      (AllocResult.OOM, r2.2,
        [ranEv, AllocEvent.TryAlloc true false, AllocEvent.ThrowOOM])

/-- Continuation of AllocateInternalWithGc after the initial wait and retry:
the plan loop (heap.cc 972-987), the retry with growth allowed (989-992) and
the final soft-clearing escalation (993-1012). -/
def allocAfterWait {σ : Type} (env : AllocEnv σ) (wasDefault : Bool) (allocator : Nat)
    (s : σ) : AllocResult × σ × List AllocEvent :=
  match allocGcLoop env wasDefault allocator env.gcPlan s with
  | (LoopOutcome.Found p, s1, evs1) => (AllocResult.Ok p, s1, evs1)
  | (LoopOutcome.LoopAborted, s1, evs1) => (AllocResult.Aborted, s1, evs1)
  | (LoopOutcome.NotFound, s1, evs1) =>
    let r2 := env.tryToAllocate true s1
    match r2.1 with
    | some p => (AllocResult.Ok p, r2.2, evs1 ++ [AllocEvent.TryAlloc true true])
    | Option.none =>
      let fin := allocFinalPhase env wasDefault allocator r2.2
      (fin.1, fin.2.1, evs1 ++ AllocEvent.TryAlloc true false :: fin.2.2)

/-- Heap::AllocateInternalWithGc, heap.cc lines 950-1015: wait for any
in-progress GC and retry if one ran (aborting when the default allocator
changed while suspended), then escalate through the plan loop, the grow
retry, and the soft-clearing collection before throwing out-of-memory. -/
def allocateInternalWithGc {σ : Type} (env : AllocEnv σ) (allocator : Nat) (s0 : σ) :
    AllocResult × σ × List AllocEvent :=
  let wasDefault := decide (allocator = env.currentAllocator s0)
  let r0 := env.waitForGcToComplete s0
  let waitEv := AllocEvent.WaitForGc r0.1
  if r0.1 ≠ GcType.None then
    if wasDefault ∧ allocator ≠ env.currentAllocator r0.2 then
      (AllocResult.Aborted, r0.2, [waitEv])
    else
      let r1 := env.tryToAllocate false r0.2
      match r1.1 with
      | some p => (AllocResult.Ok p, r1.2, [waitEv, AllocEvent.TryAlloc false true])
      | Option.none =>
        let k := allocAfterWait env wasDefault allocator r1.2
        (k.1, k.2.1, waitEv :: AllocEvent.TryAlloc false false :: k.2.2)
  else
    let k := allocAfterWait env wasDefault allocator r0.2
    (k.1, k.2.1, waitEv :: k.2.2)

/-- Events of one plan step as the specification describes them: run the GC
type with clearSoftReferences=false, and after each run that collected retry
the allocation, unsuccessfully on the out-of-memory path. -/
def planStepEvents (tr : GcType × Bool) : List AllocEvent :=
  AllocEvent.RunGc tr.1 false tr.2 ::
    (if tr.2 then [AllocEvent.TryAlloc false false] else [])

/-- The full escalation of the specification, ending in the out-of-memory
throw: wait for any in-progress GC (retrying, unsuccessfully, if one ran),
run each plan entry with clearSoftReferences=false retrying after each run
that collected, retry once allowing growth, run the last plan entry with
clearSoftReferences=true, and retry once more; the throw comes only after
that final retry failed. -/
def FullEscalationTrace (plan : List GcType) (evs : List AllocEvent) : Prop :=
  ∃ (g : GcType) (rans : List Bool) (finalRan : Bool),
    rans.length = plan.length ∧
    evs = AllocEvent.WaitForGc g ::
      ((if g ≠ GcType.None then [AllocEvent.TryAlloc false false] else []) ++
       (List.map planStepEvents (plan.zip rans)).flatten ++
       [AllocEvent.TryAlloc true false,
        AllocEvent.RunGc (plan.getLastD GcType.None) true finalRan,
        AllocEvent.TryAlloc true false,
        AllocEvent.ThrowOOM])

/-- If the plan loop finishes without finding memory, its event trace is
exactly one plan step per plan entry, in plan order, each recording the
collector run and the failed retry after each run that collected. -/
theorem allocGcLoop_notFound {σ : Type} (env : AllocEnv σ) (wasDefault : Bool)
    (allocator : Nat) :
    ∀ (plan : List GcType) (s : σ) (s' : σ) (evs : List AllocEvent),
      allocGcLoop env wasDefault allocator plan s = (LoopOutcome.NotFound, s', evs) →
      ∃ rans : List Bool, rans.length = plan.length ∧
        evs = (List.map planStepEvents (plan.zip rans)).flatten := by
  intro plan
  induction plan with
  | nil =>
    intro s s' evs h
    simp only [allocGcLoop, Prod.mk.injEq] at h
    exact ⟨[], rfl, h.2.2.symm⟩
  | cons t rest ih =>
    intro s s' evs h
    simp only [allocGcLoop] at h
    split at h
    · exact absurd (congrArg Prod.fst h) (by simp)
    · split at h
      · split at h
        · exact absurd (congrArg Prod.fst h) (by simp)
        · rename_i hd _ _
          rcases hk : allocGcLoop env wasDefault allocator rest
              (env.tryToAllocate false (env.collectGarbage t false s).2).2 with ⟨o, s2, evs2⟩
          rw [hk] at h
          simp only [Prod.mk.injEq] at h
          obtain ⟨ho, hs2, hevs⟩ := h
          obtain ⟨rans, hlen, he⟩ := ih _ _ _ (by rw [hk, ho])
          refine ⟨true :: rans, by simp [hlen], ?_⟩
          rw [← hevs, he, hd]
          simp [planStepEvents]
      · rename_i hd
        rcases hk : allocGcLoop env wasDefault allocator rest
            (env.collectGarbage t false s).2 with ⟨o, s2, evs2⟩
        rw [hk] at h
        simp only [Prod.mk.injEq] at h
        obtain ⟨ho, hs2, hevs⟩ := h
        obtain ⟨rans, hlen, he⟩ := ih _ _ _ (by rw [hk, ho])
        have hd2 : (decide ¬((env.collectGarbage t false s).1 = GcType.None)) = false := by
          simpa using hd
        refine ⟨false :: rans, by simp [hlen], ?_⟩
        rw [← hevs, he, hd2]
        simp [planStepEvents]

/-- If the final escalation throws out-of-memory, its events are exactly the
soft-clearing run of the last plan entry, one failed growing retry, and the
throw. -/
theorem allocFinalPhase_oom {σ : Type} (env : AllocEnv σ) (wasDefault : Bool)
    (allocator : Nat) (s : σ) (s' : σ) (evs : List AllocEvent)
    (h : allocFinalPhase env wasDefault allocator s = (AllocResult.OOM, s', evs)) :
    ∃ finalRan : Bool,
      evs = [AllocEvent.RunGc (env.gcPlan.getLastD GcType.None) true finalRan,
             AllocEvent.TryAlloc true false, AllocEvent.ThrowOOM] := by
  simp only [allocFinalPhase] at h
  split at h
  · exact absurd (congrArg Prod.fst h) (by simp)
  · split at h
    · exact absurd (congrArg Prod.fst h) (by simp)
    · simp only [Prod.mk.injEq] at h
      exact ⟨_, h.2.2.symm⟩

/-- If the phase after the initial wait ends in the out-of-memory throw, its
events are the full plan loop with every retry failing, the failed growing
retry, the soft-clearing run of the last plan entry, the final failed retry,
and the throw. -/
theorem allocAfterWait_oom {σ : Type} (env : AllocEnv σ) (wasDefault : Bool)
    (allocator : Nat) (s : σ) (s' : σ) (evs : List AllocEvent)
    (h : allocAfterWait env wasDefault allocator s = (AllocResult.OOM, s', evs)) :
    ∃ (rans : List Bool) (finalRan : Bool), rans.length = env.gcPlan.length ∧
      evs = (List.map planStepEvents (env.gcPlan.zip rans)).flatten ++
        AllocEvent.TryAlloc true false ::
        AllocEvent.RunGc (env.gcPlan.getLastD GcType.None) true finalRan ::
        [AllocEvent.TryAlloc true false, AllocEvent.ThrowOOM] := by
  simp only [allocAfterWait] at h
  split at h
  · exact absurd (congrArg Prod.fst h) (by simp)
  · exact absurd (congrArg Prod.fst h) (by simp)
  · rename_i s1 evs1 hloop
    split at h
    · exact absurd (congrArg Prod.fst h) (by simp)
    · rename_i htry
      rcases hfin : allocFinalPhase env wasDefault allocator
          (env.tryToAllocate true s1).2 with ⟨o3, s3, evs3⟩
      rw [hfin] at h
      simp only [Prod.mk.injEq] at h
      obtain ⟨ho3, hs3, hevs⟩ := h
      obtain ⟨rans, hlen, hevs1⟩ := allocGcLoop_notFound env wasDefault allocator _ _ _ _ hloop
      obtain ⟨fr, hevs3⟩ := allocFinalPhase_oom env wasDefault allocator _ _ _ (by rw [hfin, ho3])
      refine ⟨rans, fr, hlen, ?_⟩
      rw [← hevs, hevs1, hevs3]

/-- C1: For every allocation that misses the fast path, AllocateInternalWithGc
throws out-of-memory only after the full escalation completed in order: it
first waited for any in-progress GC and retried if one ran, then ran each GC
type of the current plan with clearSoftReferences=false retrying after each
GC that ran, then retried once allowing the heap to grow, then ran the last
plan entry with clearSoftReferences=true and retried once more; the throw
happened only because that final retry still returned null. -/
theorem allocateInternalWithGc_oom_escalation {σ : Type} (env : AllocEnv σ)
    (allocator : Nat) (s0 s' : σ) (evs : List AllocEvent)
    (h : allocateInternalWithGc env allocator s0 = (AllocResult.OOM, s', evs)) :
    FullEscalationTrace env.gcPlan evs := by
  simp only [allocateInternalWithGc] at h
  split at h
  · rename_i hg
    split at h
    · exact absurd (congrArg Prod.fst h) (by simp)
    · split at h
      · exact absurd (congrArg Prod.fst h) (by simp)
      · rename_i htry
        rcases hk : allocAfterWait env (decide (allocator = env.currentAllocator s0)) allocator
            (env.tryToAllocate false (env.waitForGcToComplete s0).2).2 with ⟨o, s2, evs2⟩
        rw [hk] at h
        simp only [Prod.mk.injEq] at h
        obtain ⟨ho, hs2, hevs⟩ := h
        obtain ⟨rans, fr, hlen, he⟩ := allocAfterWait_oom env _ allocator _ _ _ (by rw [hk, ho])
        refine ⟨(env.waitForGcToComplete s0).1, rans, fr, hlen, ?_⟩
        rw [← hevs, he]
        simp [hg]
  · rename_i hg
    rcases hk : allocAfterWait env (decide (allocator = env.currentAllocator s0)) allocator
        (env.waitForGcToComplete s0).2 with ⟨o, s2, evs2⟩
    rw [hk] at h
    simp only [Prod.mk.injEq] at h
    obtain ⟨ho, hs2, hevs⟩ := h
    obtain ⟨rans, fr, hlen, he⟩ := allocAfterWait_oom env _ allocator _ _ _ (by rw [hk, ho])
    refine ⟨(env.waitForGcToComplete s0).1, rans, fr, hlen, ?_⟩
    rw [← hevs, he]
    simp [hg]

/-- Environment for the C1 witness: the allocator never changes, every
allocation attempt fails, every requested collector runs, a full GC was in
progress at entry, and the plan is the mark-sweep plan sticky, partial,
full. -/
def oomEnv : AllocEnv Unit :=
  { gcPlan := [GcType.Sticky, GcType.Partial, GcType.Full]
    currentAllocator := fun _ => 0
    waitForGcToComplete := fun _ => (GcType.Full, ())
    tryToAllocate := fun _ _ => (Option.none, ())
    collectGarbage := fun t _ _ => (t, ()) }

/-- Witness for C1: on oomEnv the run ends in the out-of-memory throw and its
event trace is the full escalation. -/
theorem allocateInternalWithGc_oom_escalation_witness :
    FullEscalationTrace oomEnv.gcPlan
      [AllocEvent.WaitForGc GcType.Full, AllocEvent.TryAlloc false false,
       AllocEvent.RunGc GcType.Sticky false true, AllocEvent.TryAlloc false false,
       AllocEvent.RunGc GcType.Partial false true, AllocEvent.TryAlloc false false,
       AllocEvent.RunGc GcType.Full false true, AllocEvent.TryAlloc false false,
       AllocEvent.TryAlloc true false, AllocEvent.RunGc GcType.Full true true,
       AllocEvent.TryAlloc true false, AllocEvent.ThrowOOM] :=
  allocateInternalWithGc_oom_escalation oomEnv 0 () () _ (by decide)

/-! ## Reference processing (heap.cc ProcessReferences, IsEnqueued,
IsEnqueuable).  Heap::ProcessReferences is part of the sources; the
ReferenceQueue operations it calls are declared but their bodies are not, so
they are modelled from the specification (sections 3, 4.7 and 9). -/

/-- The four reference queues of the heap in reachability-strength order
(heap.cc soft_reference_queue_, weak_reference_queue_,
finalizer_reference_queue_, phantom_reference_queue_). -/
inductive RefQueueKind where
  | Soft
  | Weak
  | Finalizer
  | Phantom
deriving DecidableEq, Repr

/-- State of reference processing.  Reference objects are identified by Nat
ids and their fields are total maps.  queues holds the contents of the four
reachability queues; cleared is the cleared-references list.  pendingNext
and referent are the fields the GC reads and writes; queueField and
queueNextField are the java-side queue and queueNext fields, which reference
processing never writes.  marked is the current mark predicate on heap
objects. -/
structure RefProcState where
  pendingNext : Nat → Option Nat
  referent : Nat → Option Nat
  queueField : Nat → Option Nat
  queueNextField : Nat → Option Nat
  marked : Nat → Bool
  queues : RefQueueKind → List Nat
  cleared : List Nat

/-- Pointwise update of a reference field map. -/
def updField (f : Nat → Option Nat) (r : Nat) (v : Option Nat) : Nat → Option Nat :=
  fun x => if x = r then v else f x

/-- Replacement of the contents of one queue. -/
def setQueue (qs : RefQueueKind → List Nat) (q : RefQueueKind) (l : List Nat) :
    RefQueueKind → List Nat :=
  fun k => if k = q then l else qs k

/-- Modelled from the spec: the body of ReferenceQueue::ClearWhiteReferences
for one dequeued reference (spec 4.7 steps 2-3 and invariant 6): a white
(unmarked) referent is cleared and the reference is enqueued on the cleared
list, its pendingNext becoming non-null again; a reference with a marked or
already null referent is left dequeued, outside every queue. -/
def clearWhiteStep (s : RefProcState) (r : Nat) : RefProcState :=
  match s.referent r with
  | Option.none => s
  | some t =>
    if s.marked t then s
    else
      { s with referent := updField s.referent r Option.none,
               pendingNext := updField s.pendingNext r (some r),
               cleared := s.cleared ++ [r] }

/-- Modelled from the spec: generic queue drain; each dequeue resets the
pendingNext link of the removed reference to null (spec 9: enqueued iff
pendingNext non-null) before handing it to the per-reference body. -/
def drainList (step : RefProcState → Nat → RefProcState) (s : RefProcState) :
    List Nat → RefProcState
  | [] => s
  | r :: rest =>
    drainList step
      (step { s with pendingNext := updField s.pendingNext r Option.none } r) rest

/-- Modelled from the spec: drain of ClearWhiteReferences over the dequeued
items. -/
def clearWhiteList (s : RefProcState) (items : List Nat) : RefProcState :=
  drainList clearWhiteStep s items

/-- Modelled from the spec: ReferenceQueue::ClearWhiteReferences(cleared,
isMarked) (spec 3 and 4.7): drain the queue, clearing every reference whose
referent remains unmarked and moving it to the cleared list. -/
def clearWhiteReferences (s : RefProcState) (q : RefQueueKind) : RefProcState :=
  clearWhiteList { s with queues := setQueue s.queues q [] } (s.queues q)

/-- Modelled from the spec: the body of
ReferenceQueue::EnqueueFinalizerReferences for one dequeued reference (spec
4.7 step 4): a white referent is marked together with its transitive closure
(markClosure), the reference is cleared and enqueued on the cleared list; a
marked or null referent leaves the dequeued reference outside every queue. -/
def enqueueFinalizerStep (markClosure : (Nat → Bool) → Nat → (Nat → Bool))
    (s : RefProcState) (r : Nat) : RefProcState :=
  match s.referent r with
  | Option.none => s
  | some t =>
    if s.marked t then s
    else
      { s with marked := markClosure s.marked t,
               referent := updField s.referent r Option.none,
               pendingNext := updField s.pendingNext r (some r),
               cleared := s.cleared ++ [r] }

/-- Modelled from the spec: drain of EnqueueFinalizerReferences. -/
def enqueueFinalizerList (markClosure : (Nat → Bool) → Nat → (Nat → Bool))
    (s : RefProcState) (items : List Nat) : RefProcState :=
  drainList (enqueueFinalizerStep markClosure) s items

/-- Modelled from the spec: ReferenceQueue::EnqueueFinalizerReferences
(spec 4.7 step 4). -/
def enqueueFinalizerReferences (markClosure : (Nat → Bool) → Nat → (Nat → Bool))
    (s : RefProcState) : RefProcState :=
  enqueueFinalizerList markClosure
    { s with queues := setQueue s.queues RefQueueKind.Finalizer [] }
    (s.queues RefQueueKind.Finalizer)

/-- Modelled from the spec: the body of PreserveSomeSoftReferences for one
dequeued reference (spec 4.7 step 1): the preserve callback decides each
referent; a preserved referent is marked with its transitive closure and its
reference leaves the queue, the others are re-enqueued on the soft queue. -/
def preserveSoftStep (preserve : Nat → Bool) (markClosure : (Nat → Bool) → Nat → (Nat → Bool))
    (s : RefProcState) (r : Nat) : RefProcState :=
  match s.referent r with
  | Option.none => s
  | some t =>
    if preserve t then { s with marked := markClosure s.marked t }
    else
      { s with
          queues := setQueue s.queues RefQueueKind.Soft
            (s.queues RefQueueKind.Soft ++ [r]),
          pendingNext := updField s.pendingNext r (some r) }

/-- Modelled from the spec: drain of PreserveSomeSoftReferences. -/
def preserveSoftList (preserve : Nat → Bool) (markClosure : (Nat → Bool) → Nat → (Nat → Bool))
    (s : RefProcState) (items : List Nat) : RefProcState :=
  drainList (preserveSoftStep preserve markClosure) s items

/-- Modelled from the spec: ReferenceQueue::PreserveSomeSoftReferences
(spec 4.7 step 1). -/
def preserveSomeSoftReferences (preserve : Nat → Bool)
    (markClosure : (Nat → Bool) → Nat → (Nat → Bool)) (s : RefProcState) : RefProcState :=
  preserveSoftList preserve markClosure
    { s with queues := setQueue s.queues RefQueueKind.Soft [] }
    (s.queues RefQueueKind.Soft)

/-- Phases of Heap::ProcessReferences in execution order. -/
inductive RefPhase where
  | PreservedSoft
  | ClearedSoft
  | ClearedWeak
  | EnqueuedFinalizers
  | ClearedPhantom
deriving DecidableEq, Repr

/-- Heap::ProcessReferences, heap.cc lines 614-649: unless the cycle clears
soft references or the runtime is the zygote, preserve some soft referents;
then clear white soft and weak references, enqueue finalizer references,
re-clear white soft and weak references, and clear white phantom references
last.  clearSoft is the clear_soft argument, isZygote is
Runtime::IsZygote(), preserve abstracts the preserve callback of
PreserveSoftReferenceCallback, and markClosure abstracts the recursive mark
callback.  Returns the new state and the phases executed in order. -/
def processReferences (clearSoft isZygote : Bool) (preserve : Nat → Bool)
    (markClosure : (Nat → Bool) → Nat → (Nat → Bool)) (s : RefProcState) :
    RefProcState × List RefPhase :=
  let pre := if ¬clearSoft ∧ ¬isZygote then
      (preserveSomeSoftReferences preserve markClosure s, [RefPhase.PreservedSoft])
    else (s, ([] : List RefPhase))
  let s2 := clearWhiteReferences pre.1 RefQueueKind.Soft
  let s3 := clearWhiteReferences s2 RefQueueKind.Weak
  let s4 := enqueueFinalizerReferences markClosure s3
  let s5 := clearWhiteReferences s4 RefQueueKind.Soft
  let s6 := clearWhiteReferences s5 RefQueueKind.Weak
  let s7 := clearWhiteReferences s6 RefQueueKind.Phantom
  (s7, pre.2 ++ [RefPhase.ClearedSoft, RefPhase.ClearedWeak, RefPhase.EnqueuedFinalizers,
                 RefPhase.ClearedSoft, RefPhase.ClearedWeak, RefPhase.ClearedPhantom])

/-- Heap::IsEnqueued, heap.cc lines 651-655: a reference is enqueued exactly
when its pendingNext field is non-null (enqueued references sit on cyclic
lists). -/
def isEnqueued (s : RefProcState) (r : Nat) : Bool := (s.pendingNext r).isSome

/-- Heap::IsEnqueuable, heap.cc lines 657-664: a reference is enqueuable when
it has an associated java-side queue and its queueNext field is still
null. -/
def isEnqueuable (s : RefProcState) (r : Nat) : Bool :=
  (s.queueField r).isSome && (s.queueNextField r).isNone

/-- Clearing one white reference never touches the reachability queues. -/
theorem clearWhiteStep_queues (s : RefProcState) (r : Nat) :
    (clearWhiteStep s r).queues = s.queues := by
  unfold clearWhiteStep
  split
  · rfl
  · split <;> rfl

/-- A drain whose body preserves the reachability queues preserves them. -/
theorem drainList_queues (step : RefProcState → Nat → RefProcState)
    (hstep : ∀ s r, (step s r).queues = s.queues) (items : List Nat) :
    ∀ s : RefProcState, (drainList step s items).queues = s.queues := by
  induction items with
  | nil => intro s; rfl
  | cons r rest ih =>
    intro s
    simp only [drainList]
    rw [ih, hstep]

/-- Draining white references never touches the reachability queues. -/
theorem clearWhiteList_queues (items : List Nat) :
    ∀ s : RefProcState, (clearWhiteList s items).queues = s.queues :=
  drainList_queues clearWhiteStep clearWhiteStep_queues items

/-- ClearWhiteReferences empties exactly the drained queue. -/
theorem clearWhiteReferences_queues (s : RefProcState) (q : RefQueueKind) :
    (clearWhiteReferences s q).queues = setQueue s.queues q [] := by
  unfold clearWhiteReferences
  rw [clearWhiteList_queues]

/-- Enqueueing one finalizer reference never touches the reachability
queues. -/
theorem enqueueFinalizerStep_queues (markClosure : (Nat → Bool) → Nat → (Nat → Bool))
    (s : RefProcState) (r : Nat) :
    (enqueueFinalizerStep markClosure s r).queues = s.queues := by
  unfold enqueueFinalizerStep
  split
  · rfl
  · split <;> rfl

/-- Draining finalizer references never touches the reachability queues. -/
theorem enqueueFinalizerList_queues (markClosure : (Nat → Bool) → Nat → (Nat → Bool))
    (items : List Nat) :
    ∀ s : RefProcState, (enqueueFinalizerList markClosure s items).queues = s.queues :=
  drainList_queues (enqueueFinalizerStep markClosure)
    (enqueueFinalizerStep_queues markClosure) items

/-- EnqueueFinalizerReferences empties exactly the finalizer queue. -/
theorem enqueueFinalizerReferences_queues (markClosure : (Nat → Bool) → Nat → (Nat → Bool))
    (s : RefProcState) :
    (enqueueFinalizerReferences markClosure s).queues =
      setQueue s.queues RefQueueKind.Finalizer [] := by
  unfold enqueueFinalizerReferences
  rw [enqueueFinalizerList_queues]

/-- C2: For every GC cycle, ProcessReferences invokes the soft-reference
preserve callback if and only if the cycle is not soft-clearing and the
runtime is not the zygote, then clears white soft references, clears white
weak references, enqueues finalizer references (marking their referents
transitively), re-clears white soft and weak references, and clears white
phantom references last; when it returns, the soft, weak, finalizer, and
phantom queues are all empty. -/
theorem processReferences_spec (clearSoft isZygote : Bool) (preserve : Nat → Bool)
    (markClosure : (Nat → Bool) → Nat → (Nat → Bool)) (s : RefProcState) :
    ((RefPhase.PreservedSoft ∈ (processReferences clearSoft isZygote preserve markClosure s).2) ↔
      (clearSoft = false ∧ isZygote = false)) ∧
    (processReferences clearSoft isZygote preserve markClosure s).2 =
      (if clearSoft = false ∧ isZygote = false then [RefPhase.PreservedSoft] else []) ++
      [RefPhase.ClearedSoft, RefPhase.ClearedWeak, RefPhase.EnqueuedFinalizers,
       RefPhase.ClearedSoft, RefPhase.ClearedWeak, RefPhase.ClearedPhantom] ∧
    (∀ k, (processReferences clearSoft isZygote preserve markClosure s).1.queues k = []) := by
  have htr : (processReferences clearSoft isZygote preserve markClosure s).2 =
      (if clearSoft = false ∧ isZygote = false then [RefPhase.PreservedSoft] else []) ++
      [RefPhase.ClearedSoft, RefPhase.ClearedWeak, RefPhase.EnqueuedFinalizers,
       RefPhase.ClearedSoft, RefPhase.ClearedWeak, RefPhase.ClearedPhantom] := by
    cases clearSoft <;> cases isZygote <;> simp [processReferences]
  refine ⟨?_, htr, ?_⟩
  · rw [htr]
    cases clearSoft <;> cases isZygote <;> simp
  · intro k
    simp only [processReferences]
    simp only [clearWhiteReferences_queues, enqueueFinalizerReferences_queues]
    cases k <;> simp [setQueue]

/-! ## The pendingNext and queueNext invariants (claim C9) -/

/-- A reference id sits in some reachability queue or on the cleared list. -/
def InAnyQueue (s : RefProcState) (r : Nat) : Prop :=
  (∃ k, r ∈ s.queues k) ∨ r ∈ s.cleared

/-- Queue well-formedness: every queue and the cleared list are
duplicate-free and pairwise disjoint (each reference is enqueued at most
once, which AtomicEnqueueIfNotEnqueued guarantees). -/
def QueuesWF (s : RefProcState) : Prop :=
  (∀ k, (s.queues k).Nodup) ∧
  (∀ k k', k ≠ k' → ∀ r, r ∈ s.queues k → r ∉ s.queues k') ∧
  (∀ k r, r ∈ s.queues k → r ∉ s.cleared) ∧
  s.cleared.Nodup

/-- The pendingNext invariant of the specification: pendingNext is null
exactly on the references that sit in no queue. -/
def PendingInv (s : RefProcState) : Prop :=
  ∀ r, s.pendingNext r = Option.none ↔ ¬ InAnyQueue s r

/-- Not being in any queue, componentwise. -/
theorem not_inAnyQueue_iff (s : RefProcState) (x : Nat) :
    ¬ InAnyQueue s x ↔ (∀ k, x ∉ s.queues k) ∧ x ∉ s.cleared := by
  simp [InAnyQueue, not_or]

/-- Transfer of queue well-formedness along equal queues and cleared list. -/
theorem queuesWF_of_eq {s t : RefProcState} (hq : t.queues = s.queues)
    (hc : t.cleared = s.cleared) (h : QueuesWF s) : QueuesWF t := by
  unfold QueuesWF at *
  rw [hq, hc]
  exact h

/-- Behaviour of a per-reference drain body on an already dequeued
reference: it leaves the java-side fields and the pendingNext links of the
other references alone, and either drops the reference (queues, cleared list
and link untouched), enqueues it on the cleared list with a non-null link, or
re-enqueues it at the back of one reachability queue with a non-null link. -/
def StepOk (step : RefProcState → Nat → RefProcState) : Prop :=
  ∀ s r,
    (step s r).queueField = s.queueField ∧
    (step s r).queueNextField = s.queueNextField ∧
    (∀ x, x ≠ r → (step s r).pendingNext x = s.pendingNext x) ∧
    ((step s r).queues = s.queues ∧ (step s r).cleared = s.cleared ∧
       (step s r).pendingNext r = s.pendingNext r ∨
     (step s r).queues = s.queues ∧ (step s r).cleared = s.cleared ++ [r] ∧
       (step s r).pendingNext r = some r ∨
     ∃ k0, (step s r).queues = setQueue s.queues k0 (s.queues k0 ++ [r]) ∧
       (step s r).cleared = s.cleared ∧ (step s r).pendingNext r = some r)

/-- The white-clearing body satisfies the drain-body contract. -/
theorem clearWhiteStep_ok : StepOk clearWhiteStep := by
  intro s r
  unfold clearWhiteStep
  split
  · exact ⟨rfl, rfl, fun x _ => rfl, Or.inl ⟨rfl, rfl, rfl⟩⟩
  · split
    · exact ⟨rfl, rfl, fun x _ => rfl, Or.inl ⟨rfl, rfl, rfl⟩⟩
    · refine ⟨rfl, rfl, fun x hx => ?_, Or.inr (Or.inl ⟨rfl, rfl, ?_⟩)⟩
      · simp [updField, hx]
      · simp [updField]

/-- The finalizer-enqueueing body satisfies the drain-body contract. -/
theorem enqueueFinalizerStep_ok (markClosure : (Nat → Bool) → Nat → (Nat → Bool)) :
    StepOk (enqueueFinalizerStep markClosure) := by
  intro s r
  unfold enqueueFinalizerStep
  split
  · exact ⟨rfl, rfl, fun x _ => rfl, Or.inl ⟨rfl, rfl, rfl⟩⟩
  · split
    · exact ⟨rfl, rfl, fun x _ => rfl, Or.inl ⟨rfl, rfl, rfl⟩⟩
    · refine ⟨rfl, rfl, fun x hx => ?_, Or.inr (Or.inl ⟨rfl, rfl, ?_⟩)⟩
      · simp [updField, hx]
      · simp [updField]

/-- The soft-preserving body satisfies the drain-body contract. -/
theorem preserveSoftStep_ok (preserve : Nat → Bool)
    (markClosure : (Nat → Bool) → Nat → (Nat → Bool)) :
    StepOk (preserveSoftStep preserve markClosure) := by
  intro s r
  unfold preserveSoftStep
  split
  · exact ⟨rfl, rfl, fun x _ => rfl, Or.inl ⟨rfl, rfl, rfl⟩⟩
  · split
    · exact ⟨rfl, rfl, fun x _ => rfl, Or.inl ⟨rfl, rfl, rfl⟩⟩
    · refine ⟨rfl, rfl, fun x hx => ?_,
        Or.inr (Or.inr ⟨RefQueueKind.Soft, rfl, rfl, ?_⟩)⟩
      · simp [updField, hx]
      · simp [updField]

/-- Draining a batch of dequeued references with a well-behaved body
maintains queue well-formedness and establishes the pendingNext invariant,
provided the batch is duplicate-free, outside every queue, and the invariant
already held outside the batch. -/
theorem drainList_inv (step : RefProcState → Nat → RefProcState) (hstep : StepOk step)
    (items : List Nat) :
    ∀ s : RefProcState, QueuesWF s → (∀ r ∈ items, ¬ InAnyQueue s r) → items.Nodup →
      (∀ x, x ∉ items → (s.pendingNext x = Option.none ↔ ¬ InAnyQueue s x)) →
      QueuesWF (drainList step s items) ∧ PendingInv (drainList step s items) ∧
      (drainList step s items).queueField = s.queueField ∧
      (drainList step s items).queueNextField = s.queueNextField := by
  induction items with
  | nil =>
    intro s hWF _ _ h4
    exact ⟨hWF, fun x => h4 x (List.not_mem_nil x), rfl, rfl⟩
  | cons r rest ih =>
    intro s hWF h2 h3 h4
    simp only [drainList]
    obtain ⟨hqf, hqnf, hpo, hcl⟩ :=
      hstep { s with pendingNext := updField s.pendingNext r Option.none } r
    have hrq : ¬ InAnyQueue s r := h2 r (List.mem_cons_self r rest)
    obtain ⟨hrqk, hrc⟩ := (not_inAnyQueue_iff s r).mp hrq
    have hrrest : r ∉ rest := (List.nodup_cons.mp h3).1
    have hrest : rest.Nodup := (List.nodup_cons.mp h3).2
    rcases hcl with ⟨hq, hc1, hc2⟩ | ⟨hq, hc1, hc2⟩ | ⟨k0, hq, hc1, hc2⟩
    · -- the reference was dropped: queues and cleared unchanged, link null
      have hWF2 : QueuesWF (step { s with pendingNext := updField s.pendingNext r Option.none } r) :=
        queuesWF_of_eq hq hc1 hWF
      have h2b : ∀ x ∈ rest,
          ¬ InAnyQueue (step { s with pendingNext := updField s.pendingNext r Option.none } r) x := by
        intro x hx
        rw [show InAnyQueue (step { s with pendingNext := updField s.pendingNext r Option.none } r) x ↔
            InAnyQueue s x by unfold InAnyQueue; rw [hq, hc1]]
        exact h2 x (List.mem_cons_of_mem r hx)
      have h4b : ∀ x, x ∉ rest →
          ((step { s with pendingNext := updField s.pendingNext r Option.none } r).pendingNext x
              = Option.none ↔
            ¬ InAnyQueue (step { s with pendingNext := updField s.pendingNext r Option.none } r) x) := by
        intro x hx
        rw [show InAnyQueue (step { s with pendingNext := updField s.pendingNext r Option.none } r) x ↔
            InAnyQueue s x by unfold InAnyQueue; rw [hq, hc1]]
        by_cases hxr : x = r
        · subst hxr
          refine iff_of_true ?_ hrq
          rw [hc2]
          simp [updField]
        · rw [hpo x hxr]
          have hupd : ({ s with pendingNext := updField s.pendingNext r Option.none }
              : RefProcState).pendingNext x = s.pendingNext x := by
            simp [updField, hxr]
          rw [hupd]
          exact h4 x (by simp [hxr, hx])
      obtain ⟨g1, g2, g4, g5⟩ := ih _ hWF2 h2b hrest h4b
      exact ⟨g1, g2, by rw [g4, hqf], by rw [g5, hqnf]⟩
    · -- the reference was enqueued on the cleared list with a non-null link
      have hWF2 : QueuesWF
          (step { s with pendingNext := updField s.pendingNext r Option.none } r) := by
        refine ⟨?_, ?_, ?_, ?_⟩
        · rw [hq]; exact hWF.1
        · rw [hq]; exact hWF.2.1
        · rw [hq, hc1]
          intro k x hx
          simp only [List.mem_append, List.mem_singleton, not_or]
          exact ⟨hWF.2.2.1 k x hx, fun he => (he ▸ hrqk k) hx⟩
        · rw [hc1]
          refine List.Nodup.append hWF.2.2.2 (List.nodup_singleton r) ?_
          intro a ha hb
          rw [List.mem_singleton] at hb
          exact hrc (hb ▸ ha)
      have h2b : ∀ x ∈ rest,
          ¬ InAnyQueue (step { s with pendingNext := updField s.pendingNext r Option.none } r) x := by
        intro x hx
        have hxr : x ≠ r := fun he => hrrest (he ▸ hx)
        have hx2 := (not_inAnyQueue_iff s x).mp (h2 x (List.mem_cons_of_mem r hx))
        rw [not_inAnyQueue_iff]
        rw [hq, hc1]
        refine ⟨hx2.1, ?_⟩
        simp only [List.mem_append, List.mem_singleton, not_or]
        exact ⟨hx2.2, hxr⟩
      have h4b : ∀ x, x ∉ rest →
          ((step { s with pendingNext := updField s.pendingNext r Option.none } r).pendingNext x
              = Option.none ↔
            ¬ InAnyQueue (step { s with pendingNext := updField s.pendingNext r Option.none } r) x) := by
        intro x hx
        by_cases hxr : x = r
        · subst hxr
          refine iff_of_false ?_ (not_not_intro ?_)
          · rw [hc2]; simp
          · exact Or.inr (by rw [hc1]; simp)
        · have hmem : InAnyQueue
              (step { s with pendingNext := updField s.pendingNext r Option.none } r) x ↔
              InAnyQueue s x := by
            unfold InAnyQueue
            rw [hq, hc1]
            simp [List.mem_append, hxr]
          rw [hpo x hxr]
          have hupd : ({ s with pendingNext := updField s.pendingNext r Option.none }
              : RefProcState).pendingNext x = s.pendingNext x := by
            simp [updField, hxr]
          rw [hupd, hmem]
          exact h4 x (by simp [hxr, hx])
      obtain ⟨g1, g2, g4, g5⟩ := ih _ hWF2 h2b hrest h4b
      exact ⟨g1, g2, by rw [g4, hqf], by rw [g5, hqnf]⟩
    · -- the reference was re-enqueued at the back of queue k0
      have hWF2 : QueuesWF
          (step { s with pendingNext := updField s.pendingNext r Option.none } r) := by
        refine ⟨?_, ?_, ?_, ?_⟩
        · intro k
          rw [hq]
          by_cases hk : k = k0
          · subst hk
            have hnd : (s.queues k ++ [r]).Nodup := by
              refine List.Nodup.append (hWF.1 k) (List.nodup_singleton r) ?_
              intro a ha hb
              rw [List.mem_singleton] at hb
              exact (hb ▸ hrqk k) ha
            simpa [setQueue] using hnd
          · simpa [setQueue, hk] using hWF.1 k
        · rw [hq]
          intro k k' hkk x hx hx'
          by_cases hk : k = k0
          · subst hk
            have hk' : ¬ k' = k := fun he => hkk he.symm
            have hx2 : x ∈ s.queues k ∨ x = r := by simpa [setQueue] using hx
            have hx'2 : x ∈ s.queues k' := by simpa [setQueue, hk'] using hx'
            rcases hx2 with hx2 | hx2
            · exact hWF.2.1 k k' hkk x hx2 hx'2
            · exact (hx2 ▸ hrqk k') hx'2
          · have hx2 : x ∈ s.queues k := by simpa [setQueue, hk] using hx
            by_cases hk' : k' = k0
            · subst hk'
              have hx'2 : x ∈ s.queues k' ∨ x = r := by simpa [setQueue] using hx'
              rcases hx'2 with hx'2 | hx'2
              · exact hWF.2.1 k k' hkk x hx2 hx'2
              · exact (hx'2 ▸ hrqk k) hx2
            · have hx'2 : x ∈ s.queues k' := by simpa [setQueue, hk'] using hx'
              exact hWF.2.1 k k' hkk x hx2 hx'2
        · rw [hq, hc1]
          intro k x hx
          by_cases hk : k = k0
          · subst hk
            have hx2 : x ∈ s.queues k ∨ x = r := by simpa [setQueue] using hx
            rcases hx2 with hx2 | hx2
            · exact hWF.2.2.1 k x hx2
            · exact hx2 ▸ hrc
          · have hx2 : x ∈ s.queues k := by simpa [setQueue, hk] using hx
            exact hWF.2.2.1 k x hx2
        · rw [hc1]
          exact hWF.2.2.2
      have h2b : ∀ x ∈ rest,
          ¬ InAnyQueue (step { s with pendingNext := updField s.pendingNext r Option.none } r) x := by
        intro x hx
        have hxr : x ≠ r := fun he => hrrest (he ▸ hx)
        have hx2 := (not_inAnyQueue_iff s x).mp (h2 x (List.mem_cons_of_mem r hx))
        rw [not_inAnyQueue_iff]
        rw [hq, hc1]
        refine ⟨?_, hx2.2⟩
        intro k
        by_cases hk : k = k0
        · subst hk
          have hgoal : x ∉ s.queues k ∧ x ≠ r := ⟨hx2.1 k, hxr⟩
          simpa [setQueue, not_or] using hgoal
        · simpa [setQueue, hk] using hx2.1 k
      have h4b : ∀ x, x ∉ rest →
          ((step { s with pendingNext := updField s.pendingNext r Option.none } r).pendingNext x
              = Option.none ↔
            ¬ InAnyQueue (step { s with pendingNext := updField s.pendingNext r Option.none } r) x) := by
        intro x hx
        by_cases hxr : x = r
        · subst hxr
          refine iff_of_false ?_ (not_not_intro ?_)
          · rw [hc2]; simp
          · refine Or.inl ⟨k0, ?_⟩
            rw [hq]
            simp [setQueue]
        · have hmem : InAnyQueue
              (step { s with pendingNext := updField s.pendingNext r Option.none } r) x ↔
              InAnyQueue s x := by
            unfold InAnyQueue
            rw [hq, hc1]
            refine or_congr (exists_congr fun k => ?_) Iff.rfl
            by_cases hk : k = k0
            · subst hk
              simp [setQueue, List.mem_append, hxr]
            · simp [setQueue, hk]
          rw [hpo x hxr]
          have hupd : ({ s with pendingNext := updField s.pendingNext r Option.none }
              : RefProcState).pendingNext x = s.pendingNext x := by
            simp [updField, hxr]
          rw [hupd, hmem]
          exact h4 x (by simp [hxr, hx])
      obtain ⟨g1, g2, g4, g5⟩ := ih _ hWF2 h2b hrest h4b
      exact ⟨g1, g2, by rw [g4, hqf], by rw [g5, hqnf]⟩

/-- Draining one whole reachability queue with a well-behaved body preserves
well-formedness and the pendingNext invariant. -/
theorem drainQueue_inv (step : RefProcState → Nat → RefProcState) (hstep : StepOk step)
    (s : RefProcState) (q : RefQueueKind) (hWF : QueuesWF s) (hinv : PendingInv s) :
    QueuesWF (drainList step { s with queues := setQueue s.queues q [] } (s.queues q)) ∧
    PendingInv (drainList step { s with queues := setQueue s.queues q [] } (s.queues q)) ∧
    (drainList step { s with queues := setQueue s.queues q [] } (s.queues q)).queueField
      = s.queueField ∧
    (drainList step { s with queues := setQueue s.queues q [] } (s.queues q)).queueNextField
      = s.queueNextField := by
  have hWF1 : QueuesWF { s with queues := setQueue s.queues q [] } := by
    refine ⟨?_, ?_, ?_, hWF.2.2.2⟩
    · intro k
      by_cases hk : k = q
      · simp [setQueue, hk]
      · simpa [setQueue, hk] using hWF.1 k
    · intro k k' hkk x hx hx'
      by_cases hk : k = q
      · subst hk
        simp [setQueue] at hx
      · have hx2 : x ∈ s.queues k := by simpa [setQueue, hk] using hx
        by_cases hk' : k' = q
        · subst hk'
          simp [setQueue] at hx'
        · have hx'2 : x ∈ s.queues k' := by simpa [setQueue, hk'] using hx'
          exact hWF.2.1 k k' hkk x hx2 hx'2
    · intro k x hx
      by_cases hk : k = q
      · subst hk
        simp [setQueue] at hx
      · have hx2 : x ∈ s.queues k := by simpa [setQueue, hk] using hx
        exact hWF.2.2.1 k x hx2
  have h2 : ∀ r ∈ s.queues q, ¬ InAnyQueue { s with queues := setQueue s.queues q [] } r := by
    intro r hr
    rw [not_inAnyQueue_iff]
    refine ⟨?_, hWF.2.2.1 q r hr⟩
    intro k
    by_cases hk : k = q
    · simp [setQueue, hk]
    · have hrk : r ∉ s.queues k := hWF.2.1 q k (fun he => hk he.symm) r hr
      simpa [setQueue, hk] using hrk
  have h4 : ∀ x, x ∉ s.queues q →
      (({ s with queues := setQueue s.queues q [] } : RefProcState).pendingNext x = Option.none ↔
        ¬ InAnyQueue { s with queues := setQueue s.queues q [] } x) := by
    intro x hxq
    have hmem : InAnyQueue { s with queues := setQueue s.queues q [] } x ↔ InAnyQueue s x := by
      unfold InAnyQueue
      refine or_congr (exists_congr fun k => ?_) Iff.rfl
      by_cases hk : k = q
      · subst hk
        simp [setQueue, hxq]
      · simp [setQueue, hk]
    rw [hmem]
    exact hinv x
  exact drainList_inv step hstep (s.queues q) _ hWF1 h2 (hWF.1 q) h4

/-- ClearWhiteReferences preserves well-formedness, the pendingNext
invariant, and the java-side fields. -/
theorem clearWhiteReferences_inv (s : RefProcState) (q : RefQueueKind)
    (hWF : QueuesWF s) (hinv : PendingInv s) :
    QueuesWF (clearWhiteReferences s q) ∧ PendingInv (clearWhiteReferences s q) ∧
    (clearWhiteReferences s q).queueField = s.queueField ∧
    (clearWhiteReferences s q).queueNextField = s.queueNextField :=
  drainQueue_inv clearWhiteStep clearWhiteStep_ok s q hWF hinv

/-- EnqueueFinalizerReferences preserves well-formedness, the pendingNext
invariant, and the java-side fields. -/
theorem enqueueFinalizerReferences_inv (markClosure : (Nat → Bool) → Nat → (Nat → Bool))
    (s : RefProcState) (hWF : QueuesWF s) (hinv : PendingInv s) :
    QueuesWF (enqueueFinalizerReferences markClosure s) ∧
    PendingInv (enqueueFinalizerReferences markClosure s) ∧
    (enqueueFinalizerReferences markClosure s).queueField = s.queueField ∧
    (enqueueFinalizerReferences markClosure s).queueNextField = s.queueNextField :=
  drainQueue_inv (enqueueFinalizerStep markClosure) (enqueueFinalizerStep_ok markClosure)
    s RefQueueKind.Finalizer hWF hinv

/-- PreserveSomeSoftReferences preserves well-formedness, the pendingNext
invariant, and the java-side fields. -/
theorem preserveSomeSoftReferences_inv (preserve : Nat → Bool)
    (markClosure : (Nat → Bool) → Nat → (Nat → Bool)) (s : RefProcState)
    (hWF : QueuesWF s) (hinv : PendingInv s) :
    QueuesWF (preserveSomeSoftReferences preserve markClosure s) ∧
    PendingInv (preserveSomeSoftReferences preserve markClosure s) ∧
    (preserveSomeSoftReferences preserve markClosure s).queueField = s.queueField ∧
    (preserveSomeSoftReferences preserve markClosure s).queueNextField = s.queueNextField :=
  drainQueue_inv (preserveSoftStep preserve markClosure) (preserveSoftStep_ok preserve markClosure)
    s RefQueueKind.Soft hWF hinv

/-- Reference processing preserves well-formedness, establishes the
pendingNext invariant on its final state, and leaves the java-side queue and
queueNext fields untouched. -/
theorem processReferences_inv (clearSoft isZygote : Bool) (preserve : Nat → Bool)
    (markClosure : (Nat → Bool) → Nat → (Nat → Bool)) (s : RefProcState)
    (hWF : QueuesWF s) (hinv : PendingInv s) :
    QueuesWF (processReferences clearSoft isZygote preserve markClosure s).1 ∧
    PendingInv (processReferences clearSoft isZygote preserve markClosure s).1 ∧
    (processReferences clearSoft isZygote preserve markClosure s).1.queueField = s.queueField ∧
    (processReferences clearSoft isZygote preserve markClosure s).1.queueNextField
      = s.queueNextField := by
  have key : ∀ t : RefProcState, QueuesWF t → PendingInv t →
      QueuesWF (clearWhiteReferences (clearWhiteReferences (clearWhiteReferences
        (enqueueFinalizerReferences markClosure (clearWhiteReferences (clearWhiteReferences t
          RefQueueKind.Soft) RefQueueKind.Weak)) RefQueueKind.Soft) RefQueueKind.Weak)
        RefQueueKind.Phantom) ∧
      PendingInv (clearWhiteReferences (clearWhiteReferences (clearWhiteReferences
        (enqueueFinalizerReferences markClosure (clearWhiteReferences (clearWhiteReferences t
          RefQueueKind.Soft) RefQueueKind.Weak)) RefQueueKind.Soft) RefQueueKind.Weak)
        RefQueueKind.Phantom) ∧
      (clearWhiteReferences (clearWhiteReferences (clearWhiteReferences
        (enqueueFinalizerReferences markClosure (clearWhiteReferences (clearWhiteReferences t
          RefQueueKind.Soft) RefQueueKind.Weak)) RefQueueKind.Soft) RefQueueKind.Weak)
        RefQueueKind.Phantom).queueField = t.queueField ∧
      (clearWhiteReferences (clearWhiteReferences (clearWhiteReferences
        (enqueueFinalizerReferences markClosure (clearWhiteReferences (clearWhiteReferences t
          RefQueueKind.Soft) RefQueueKind.Weak)) RefQueueKind.Soft) RefQueueKind.Weak)
        RefQueueKind.Phantom).queueNextField = t.queueNextField := by
    intro t hWFt hinvt
    obtain ⟨w1, i1, f1, g1⟩ := clearWhiteReferences_inv t RefQueueKind.Soft hWFt hinvt
    obtain ⟨w2, i2, f2, g2⟩ := clearWhiteReferences_inv _ RefQueueKind.Weak w1 i1
    obtain ⟨w3, i3, f3, g3⟩ := enqueueFinalizerReferences_inv markClosure _ w2 i2
    obtain ⟨w4, i4, f4, g4⟩ := clearWhiteReferences_inv _ RefQueueKind.Soft w3 i3
    obtain ⟨w5, i5, f5, g5⟩ := clearWhiteReferences_inv _ RefQueueKind.Weak w4 i4
    obtain ⟨w6, i6, f6, g6⟩ := clearWhiteReferences_inv _ RefQueueKind.Phantom w5 i5
    exact ⟨w6, i6, by rw [f6, f5, f4, f3, f2, f1], by rw [g6, g5, g4, g3, g2, g1]⟩
  by_cases hc : ¬(clearSoft = true) ∧ ¬(isZygote = true)
  · obtain ⟨w0, i0, f0, g0⟩ := preserveSomeSoftReferences_inv preserve markClosure s hWF hinv
    have heq : (processReferences clearSoft isZygote preserve markClosure s).1 =
        clearWhiteReferences (clearWhiteReferences (clearWhiteReferences
          (enqueueFinalizerReferences markClosure (clearWhiteReferences (clearWhiteReferences
            (preserveSomeSoftReferences preserve markClosure s)
            RefQueueKind.Soft) RefQueueKind.Weak)) RefQueueKind.Soft) RefQueueKind.Weak)
          RefQueueKind.Phantom := by
      simp only [processReferences, if_pos hc]
    obtain ⟨w, i, f, g⟩ := key _ w0 i0
    exact ⟨by rw [heq]; exact w, by rw [heq]; exact i,
      by rw [heq, f, f0], by rw [heq, g, g0]⟩
  · have heq : (processReferences clearSoft isZygote preserve markClosure s).1 =
        clearWhiteReferences (clearWhiteReferences (clearWhiteReferences
          (enqueueFinalizerReferences markClosure (clearWhiteReferences (clearWhiteReferences
            s RefQueueKind.Soft) RefQueueKind.Weak)) RefQueueKind.Soft) RefQueueKind.Weak)
          RefQueueKind.Phantom := by
      simp only [processReferences, if_neg hc]
    obtain ⟨w, i, f, g⟩ := key s hWF hinv
    exact ⟨by rw [heq]; exact w, by rw [heq]; exact i, by rw [heq, f], by rw [heq, g]⟩

/-- A reference-processing state whose single reference of interest (id 0)
was created without an associated java queue: all fields null, all queues
empty. -/
def emptyRefState : RefProcState :=
  { pendingNext := fun _ => Option.none, referent := fun _ => Option.none,
    queueField := fun _ => Option.none, queueNextField := fun _ => Option.none,
    marked := fun _ => false, queues := fun _ => [], cleared := [] }

/-- Counterexample to C9 as stated: at the end of reference processing, the
reference with id 0, created without an associated java queue, has a null
queueNext field and yet is not enqueuable, because IsEnqueuable
(heap.cc 657-664) also requires queue != null.  The claimed equivalence
"queueNext is null iff the reference is still enqueuable" therefore fails. -/
theorem isEnqueuable_counterexample :
    (processReferences false false (fun _ => false) (fun m _ => m) emptyRefState).1.queueNextField 0
      = Option.none ∧
    isEnqueuable (processReferences false false (fun _ => false) (fun m _ => m) emptyRefState).1 0
      = false := by
  constructor <;> rfl

/-- C9 (amended): for every reference object at the end of reference
processing, the pendingNext field is null if and only if the reference sits
in no queue (the cleared list included), i.e. IsEnqueued agrees with queue
membership; the queueNext field is untouched by processing, and among
references with an associated java queue (queue != null) it is null if and
only if the reference is still enqueuable, while a reference without an
associated queue is never enqueuable.  The hypotheses say the queues were
well-formed and the invariant held when processing began. -/
theorem referenceInvariants_amended (clearSoft isZygote : Bool) (preserve : Nat → Bool)
    (markClosure : (Nat → Bool) → Nat → (Nat → Bool)) (s : RefProcState)
    (hWF : QueuesWF s) (hinv : PendingInv s) :
    (∀ r, ((processReferences clearSoft isZygote preserve markClosure s).1.pendingNext r
        = Option.none ↔
      ¬ InAnyQueue (processReferences clearSoft isZygote preserve markClosure s).1 r)) ∧
    (∀ r, (isEnqueued (processReferences clearSoft isZygote preserve markClosure s).1 r = true ↔
      InAnyQueue (processReferences clearSoft isZygote preserve markClosure s).1 r)) ∧
    (∀ r, s.queueField r ≠ Option.none →
      (isEnqueuable (processReferences clearSoft isZygote preserve markClosure s).1 r = true ↔
        (processReferences clearSoft isZygote preserve markClosure s).1.queueNextField r
          = Option.none)) ∧
    (∀ r, s.queueField r = Option.none →
      isEnqueuable (processReferences clearSoft isZygote preserve markClosure s).1 r = false) := by
  obtain ⟨hW, hI, hF, hG⟩ :=
    processReferences_inv clearSoft isZygote preserve markClosure s hWF hinv
  refine ⟨hI, ?_, ?_, ?_⟩
  · intro r
    have h := hI r
    rcases hp : (processReferences clearSoft isZygote preserve markClosure s).1.pendingNext r
      with _ | v
    · rw [isEnqueued, hp]
      simp only [Option.isSome_none, Bool.false_eq_true, false_iff]
      exact h.mp hp
    · rw [isEnqueued, hp]
      simp only [Option.isSome_some, true_iff]
      by_contra hn
      rw [h.mpr hn] at hp
      exact Option.noConfusion hp
  · intro r hr
    rw [isEnqueuable, hF, hG]
    rcases hqv : s.queueField r with _ | v
    · exact absurd hqv hr
    · simp [Option.isNone_iff_eq_none]
  · intro r hr
    rw [isEnqueuable, hF]
    simp [hr]

/-- Witness for the amended C9 theorem, instantiated on emptyRefState (whose
queues are trivially well-formed and whose pendingNext invariant holds) and
the reference id 5. -/
theorem referenceInvariants_amended_witness :
    ((processReferences false false (fun _ => true) (fun m _ => m) emptyRefState).1.pendingNext 5
        = Option.none ↔
      ¬ InAnyQueue
          (processReferences false false (fun _ => true) (fun m _ => m) emptyRefState).1 5) ∧
    isEnqueuable (processReferences false false (fun _ => true) (fun m _ => m) emptyRefState).1 5
      = false :=
  ⟨(referenceInvariants_amended false false (fun _ => true) (fun m _ => m) emptyRefState
      ⟨fun _ => List.nodup_nil, fun _ _ _ x hx => absurd hx (List.not_mem_nil x),
       fun _ x hx => absurd hx (List.not_mem_nil x), List.nodup_nil⟩
      (fun r => by simp [InAnyQueue, emptyRefState])).1 5,
   (referenceInvariants_amended false false (fun _ => true) (fun m _ => m) emptyRefState
      ⟨fun _ => List.nodup_nil, fun _ _ _ x hx => absurd hx (List.not_mem_nil x),
       fun _ x hx => absurd hx (List.not_mem_nil x), List.nodup_nil⟩
      (fun r => by simp [InAnyQueue, emptyRefState])).2.2.2 5 rfl⟩

/-! ## Zygote bin packing (heap.cc ZygoteCompactingCollector, lines
1303-1390) -/

/-- RoundUp(x, n) from utils.h as used with kObjectAlignment = 8: the least
multiple of n at or above x (for positive n). -/
def roundUp (x n : Nat) : Nat := ((x + n - 1) / n) * n

/-- Ordered insertion into the size-sorted bin list, after existing bins of
equal size, modelling insertion into the std::multimap bins_ keyed by bin
size. -/
def insertBin (b : Nat × Nat) : List (Nat × Nat) → List (Nat × Nat)
  | [] => [b]
  | c :: cs => if b.1 < c.1 then b :: c :: cs else c :: insertBin b cs

/-- ZygoteCompactingCollector::AddBin, heap.cc lines 1346-1350: record a
(size, position) bin, skipping zero-sized bins. -/
def addBin (bins : List (Nat × Nat)) (size position : Nat) : List (Nat × Nat) :=
  if size = 0 then bins else insertBin (size, position) bins

/-- ZygoteCompactingCollector::BuildBins together with its bitmap-walk
Callback, heap.cc lines 1309-1344: prev is context.prev_, bins is bins_;
every live object (address, raw size), taken in increasing address order,
contributes the bin from the end of the previous object to its own start,
and the cursor advances past it rounded up to the object alignment; finally
the bin from the last object to the end of the space is added. -/
def buildBinsAux (prev : Nat) (bins : List (Nat × Nat)) (endAddr : Nat) :
    List (Nat × Nat) → List (Nat × Nat)
  | [] => addBin bins (endAddr - prev) prev
  | (a, sz) :: rest => buildBinsAux (a + roundUp sz 8) (addBin bins (a - prev) prev) endAddr rest

/-- ZygoteCompactingCollector::BuildBins, heap.cc lines 1309-1320, for a
space [beginAddr, endAddr) whose live objects are objs in increasing address
order. -/
def buildBins (beginAddr endAddr : Nat) (objs : List (Nat × Nat)) : List (Nat × Nat) :=
  buildBinsAux beginAddr [] endAddr objs

/-- The gap list as the specification words it: the gaps between consecutive
live objects taken in increasing address order, plus the tail gap to the end
of the space, zero-width gaps omitted; each gap is a (size, position)
pair. -/
def specGapsFrom (endAddr : Nat) (prev : Nat) : List (Nat × Nat) → List (Nat × Nat)
  | [] => if endAddr - prev = 0 then [] else [(endAddr - prev, prev)]
  | (a, sz) :: rest =>
    (if a - prev = 0 then [] else [(a - prev, prev)]) ++
      specGapsFrom endAddr (a + roundUp sz 8) rest

/-- The gaps of the whole space, per the specification. -/
def specGaps (beginAddr endAddr : Nat) (objs : List (Nat × Nat)) : List (Nat × Nat) :=
  specGapsFrom endAddr beginAddr objs

/-- std::multimap::lower_bound combined with the erase of the chosen
iterator, on the size-sorted bin list: the first bin whose size is at least
the request, together with the remaining bins. -/
def placeInBins : List (Nat × Nat) → Nat → Option ((Nat × Nat) × List (Nat × Nat))
  | [], _ => Option.none
  | b :: bs, sz =>
    if sz ≤ b.1 then some (b, bs)
    else (placeInBins bs sz).map (fun p => (p.1, b :: p.2))

/-- ZygoteCompactingCollector::MarkNonForwardedObject, heap.cc lines
1358-1389: the object size is rounded up to the object alignment; the
smallest bin of at least that size receives the object, the bin is erased
and its remainder re-added as a new bin; if no bin fits, the object is
allocated at the end of the target space (bump-pointer Alloc, modelled from
spec 4.2 and 4.6: the allocation cursor is the end of the target space and
advances by the aligned size).  The live/mark bitmap updates and the byte
copy are not modelled.  Returns the forwarding address, whether a bin was
used, the new bins, and the new target-space end. -/
def markNonForwardedObject (bins : List (Nat × Nat)) (toSpaceEnd : Nat) (objSize : Nat) :
    (Nat × Bool) × List (Nat × Nat) × Nat :=
  let alignedSize := roundUp objSize 8
  match placeInBins bins alignedSize with
  | Option.none => ((toSpaceEnd, false), bins, toSpaceEnd + alignedSize)
  | some (b, rest) =>
    ((b.2, true), addBin rest (b.1 - alignedSize) (b.2 + alignedSize), toSpaceEnd)

/-- Bins sorted by size, the std::multimap key order. -/
def BinsSorted (bins : List (Nat × Nat)) : Prop :=
  List.Pairwise (fun a b : Nat × Nat => a.1 ≤ b.1) bins

instance (bins : List (Nat × Nat)) : Decidable (BinsSorted bins) := by
  unfold BinsSorted
  infer_instance

/-- Ordered insertion is a permutation of consing. -/
theorem insertBin_perm (b : Nat × Nat) (l : List (Nat × Nat)) :
    (insertBin b l).Perm (b :: l) := by
  induction l with
  | nil => simp [insertBin]
  | cons c cs ih =>
    by_cases hb : b.1 < c.1
    · simp [insertBin, hb]
    · simp only [insertBin, if_neg hb]
      exact (List.Perm.cons c ih).trans (List.Perm.swap b c cs)

/-- AddBin is, up to permutation, appending the non-zero bin. -/
theorem addBin_perm (bins : List (Nat × Nat)) (size position : Nat) :
    (addBin bins size position).Perm
      (bins ++ if size = 0 then [] else [(size, position)]) := by
  by_cases h : size = 0
  · simp [addBin, h]
  · simp only [addBin, if_neg h]
    exact (insertBin_perm _ _).trans (List.perm_append_singleton _ _).symm

/-- Ordered insertion keeps the bin list sorted by size. -/
theorem insertBin_sorted (b : Nat × Nat) (l : List (Nat × Nat)) (h : BinsSorted l) :
    BinsSorted (insertBin b l) := by
  induction l with
  | nil => simp [insertBin, BinsSorted]
  | cons c cs ih =>
    obtain ⟨hc, hcs⟩ := List.pairwise_cons.mp h
    by_cases hb : b.1 < c.1
    · simp only [insertBin, if_pos hb]
      refine List.pairwise_cons.mpr ⟨?_, h⟩
      intro x hx
      rcases List.mem_cons.mp hx with he | hm
      · exact he ▸ le_of_lt hb
      · exact le_trans (le_of_lt hb) (hc x hm)
    · simp only [insertBin, if_neg hb]
      refine List.pairwise_cons.mpr ⟨?_, ih hcs⟩
      intro x hx
      have hx2 : x = b ∨ x ∈ cs := by
        have hmem := (insertBin_perm b cs).mem_iff.mp hx
        simpa using hmem
      rcases hx2 with he | hm
      · exact he ▸ le_of_not_lt hb
      · exact hc x hm

/-- AddBin keeps the bin list sorted by size. -/
theorem addBin_sorted (bins : List (Nat × Nat)) (size position : Nat)
    (h : BinsSorted bins) : BinsSorted (addBin bins size position) := by
  by_cases hs : size = 0
  · simpa [addBin, hs] using h
  · simp only [addBin, if_neg hs]
    exact insertBin_sorted _ _ h

/-- The bin walk produces, up to permutation, the accumulated bins followed
by the specification gaps. -/
theorem buildBinsAux_perm (objs : List (Nat × Nat)) :
    ∀ (prev : Nat) (bins : List (Nat × Nat)) (endAddr : Nat),
      (buildBinsAux prev bins endAddr objs).Perm
        (bins ++ specGapsFrom endAddr prev objs) := by
  induction objs with
  | nil =>
    intro prev bins endAddr
    simpa [buildBinsAux, specGapsFrom] using addBin_perm bins (endAddr - prev) prev
  | cons o rest ih =>
    intro prev bins endAddr
    obtain ⟨a, sz⟩ := o
    simp only [buildBinsAux, specGapsFrom]
    refine (ih (a + roundUp sz 8) (addBin bins (a - prev) prev) endAddr).trans ?_
    refine ((addBin_perm bins (a - prev) prev).append_right _).trans ?_
    rw [List.append_assoc]

/-- The bin walk keeps the bin list sorted by size. -/
theorem buildBinsAux_sorted (objs : List (Nat × Nat)) :
    ∀ (prev : Nat) (bins : List (Nat × Nat)) (endAddr : Nat), BinsSorted bins →
      BinsSorted (buildBinsAux prev bins endAddr objs) := by
  induction objs with
  | nil =>
    intro prev bins endAddr h
    exact addBin_sorted bins (endAddr - prev) prev h
  | cons o rest ih =>
    intro prev bins endAddr h
    obtain ⟨a, sz⟩ := o
    simp only [buildBinsAux]
    exact ih _ _ endAddr (addBin_sorted bins (a - prev) prev h)

/-- When lower_bound finds no bin, every bin is smaller than the request. -/
theorem placeInBins_none (bins : List (Nat × Nat)) (sz : Nat)
    (h : placeInBins bins sz = Option.none) : ∀ c ∈ bins, c.1 < sz := by
  induction bins with
  | nil => intro c hc; exact absurd hc (List.not_mem_nil c)
  | cons b bs ih =>
    intro c hc
    by_cases hb : sz ≤ b.1
    · simp [placeInBins, hb] at h
    · simp only [placeInBins, if_neg hb] at h
      rcases List.mem_cons.mp hc with he | hm
      · exact he ▸ lt_of_not_le hb
      · have hnone : placeInBins bs sz = Option.none := by
          rcases hx : placeInBins bs sz with _ | p
          · rfl
          · rw [hx] at h
            simp at h
        exact ih hnone c hm

/-- When lower_bound finds a bin on a size-sorted list, the bin fits, it is
the smallest fitting bin, and the bins split into it and the sorted
remainder. -/
theorem placeInBins_some (bins : List (Nat × Nat)) :
    ∀ (sz : Nat) (b : Nat × Nat) (rest : List (Nat × Nat)), BinsSorted bins →
      placeInBins bins sz = some (b, rest) →
      sz ≤ b.1 ∧ (∀ c ∈ bins, sz ≤ c.1 → b.1 ≤ c.1) ∧ bins.Perm (b :: rest) ∧
      BinsSorted rest := by
  induction bins with
  | nil =>
    intro sz b rest _ h
    simp [placeInBins] at h
  | cons c cs ih =>
    intro sz b rest hsorted h
    obtain ⟨hc, hcs⟩ := List.pairwise_cons.mp hsorted
    by_cases hb : sz ≤ c.1
    · simp only [placeInBins, if_pos hb, Option.some.injEq, Prod.mk.injEq] at h
      obtain ⟨hbe, hre⟩ := h
      subst hbe
      subst hre
      refine ⟨hb, ?_, List.Perm.refl _, hcs⟩
      intro x hx hsx
      rcases List.mem_cons.mp hx with he | hm
      · exact he ▸ le_refl _
      · exact hc x hm
    · simp only [placeInBins, if_neg hb] at h
      rcases hx : placeInBins cs sz with _ | p
      · rw [hx] at h
        simp at h
      · rw [hx] at h
        obtain ⟨p1, p2⟩ := p
        simp only [Option.map_some', Option.some.injEq, Prod.mk.injEq] at h
        obtain ⟨hbe, hre⟩ := h
        obtain ⟨ih1, ih2, ih3, ih4⟩ := ih sz p1 p2 hcs hx
        subst hbe
        subst hre
        refine ⟨ih1, ?_, ?_, ?_⟩
        · intro x hx2 hsx
          rcases List.mem_cons.mp hx2 with he | hm
          · exact absurd (he ▸ hsx) hb
          · exact ih2 x hm hsx
        · exact (List.Perm.cons c ih3).trans (List.Perm.swap p1 c p2)
        · refine List.pairwise_cons.mpr ⟨?_, ih4⟩
          intro x hxm
          have hxcs : x ∈ cs := ih3.symm.subset (List.mem_cons_of_mem _ hxm)
          exact hc x hxcs

/-- C8: During pre-zygote-fork compaction, the bins are exactly the gaps
between consecutive live objects of the non-moving space taken in increasing
address order (plus the tail gap to the end of the space), and each copied
object is placed into the smallest bin whose size is at least the aligned
object size (best fit, with the remainder of the bin re-inserted as a new
bin); an object that fits in no bin is instead appended by allocating at the
end of the target space. -/
theorem zygoteBinPacking (beginAddr endAddr : Nat) (objs : List (Nat × Nat))
    (bins : List (Nat × Nat)) (toSpaceEnd objSize : Nat) (hsorted : BinsSorted bins) :
    (buildBins beginAddr endAddr objs).Perm (specGaps beginAddr endAddr objs) ∧
    BinsSorted (buildBins beginAddr endAddr objs) ∧
    (∀ b rest, placeInBins bins (roundUp objSize 8) = some (b, rest) →
      markNonForwardedObject bins toSpaceEnd objSize =
        ((b.2, true), addBin rest (b.1 - roundUp objSize 8) (b.2 + roundUp objSize 8),
          toSpaceEnd) ∧
      roundUp objSize 8 ≤ b.1 ∧
      (∀ c ∈ bins, roundUp objSize 8 ≤ c.1 → b.1 ≤ c.1) ∧
      bins.Perm (b :: rest)) ∧
    (placeInBins bins (roundUp objSize 8) = Option.none →
      (∀ c ∈ bins, c.1 < roundUp objSize 8) ∧
      markNonForwardedObject bins toSpaceEnd objSize =
        ((toSpaceEnd, false), bins, toSpaceEnd + roundUp objSize 8)) := by
  refine ⟨?_, ?_, ?_, ?_⟩
  · simpa [buildBins, specGaps] using buildBinsAux_perm objs beginAddr [] endAddr
  · exact buildBinsAux_sorted objs beginAddr [] endAddr (by simp [BinsSorted])
  · intro b rest hp
    obtain ⟨h1, h2, h3, h4⟩ := placeInBins_some bins (roundUp objSize 8) b rest hsorted hp
    refine ⟨?_, h1, h2, h3⟩
    simp [markNonForwardedObject, hp]
  · intro hp
    refine ⟨placeInBins_none bins (roundUp objSize 8) hp, ?_⟩
    simp [markNonForwardedObject, hp]

/-- Witness for C8: the non-moving space [0, 100) with live objects at 16
(raw size 5, aligned end 24) and 40 (raw size 10, aligned end 56) yields the
gaps (16,0), (16,24), (44,56); placing an object of raw size 10 (aligned 16)
picks the bin (16,0), the smallest bin of size at least 16 and erases it
(the zero remainder is skipped). -/
theorem zygoteBinPacking_witness :
    (buildBins 0 100 [(16, 5), (40, 10)]).Perm (specGaps 0 100 [(16, 5), (40, 10)]) ∧
    (markNonForwardedObject [(16, 0), (16, 24), (44, 56)] 200 10 =
      ((0, true), addBin [(16, 24), (44, 56)] (16 - roundUp 10 8) (0 + roundUp 10 8), 200) ∧
     roundUp 10 8 ≤ 16 ∧
     (∀ c ∈ ([(16, 0), (16, 24), (44, 56)] : List (Nat × Nat)),
        roundUp 10 8 ≤ c.1 → (16 : Nat) ≤ c.1) ∧
     ([(16, 0), (16, 24), (44, 56)] : List (Nat × Nat)).Perm
       ((16, 0) :: [(16, 24), (44, 56)])) :=
  ⟨(zygoteBinPacking 0 100 [(16, 5), (40, 10)] [] 0 0 (by decide)).1,
   (zygoteBinPacking 0 100 [(16, 5), (40, 10)] [(16, 0), (16, 24), (44, 56)] 200 10
      (by decide)).2.2.1 (16, 0) [(16, 24), (44, 56)] (by decide)⟩

end HeapGc
